import Mathlib

/-!
A verification development for the Goldsky ingestion engine
(`warehouse/oso_dagster/factories/goldsky/assets.py`).

The Python source is shallowly embedded: pure computations become Lean
functions; exceptions become `Except String`; the BigQuery pointer table
becomes an explicit list of rows; the heapq-backed queue becomes a sorted
list with the same observable push/pop behaviour (push performs comparisons
against existing elements and therefore raises when `None` is compared, pop
returns a minimal element and may return the pushed `None`).
-/

namespace Goldsky

/-! ### Python string ordering

Python compares strings lexicographically by code point.  We embed that
order directly on the character lists of Lean strings, comparing code
points via `Char.toNat`. -/

/-- Lexicographic code-point order on character lists (Python `str.__lt__`). -/
def clLt : List Char → List Char → Bool
  | [], [] => false
  | [], _ :: _ => true
  | _ :: _, [] => false
  | x :: xs, y :: ys =>
    if x.toNat < y.toNat then true
    else if y.toNat < x.toNat then false
    else clLt xs ys

/-- Python `<` on strings. -/
def strLt (a b : String) : Bool := clLt a.data b.data

theorem char_toNat_inj {a b : Char} (h : a.toNat = b.toNat) : a = b := by
  cases a with
  | mk av ah =>
    cases b with
    | mk bv bh =>
      simp only [Char.toNat] at h
      congr 1
      exact UInt32.ext h

theorem clLt_irrefl (l : List Char) : clLt l l = false := by
  induction l with
  | nil => rfl
  | cons x xs ih => simp [clLt, ih]

theorem clLt_trans {a b c : List Char} (hab : clLt a b = true) (hbc : clLt b c = true) :
    clLt a c = true := by
  induction a generalizing b c with
  | nil =>
    cases b with
    | nil => simp [clLt] at hab
    | cons y ys =>
      cases c with
      | nil => simp [clLt] at hbc
      | cons z zs => simp [clLt]
  | cons x xs ih =>
    cases b with
    | nil => simp [clLt] at hab
    | cons y ys =>
      cases c with
      | nil => simp [clLt] at hbc
      | cons z zs =>
        simp only [clLt] at hab hbc ⊢
        by_cases hxy : x.toNat < y.toNat
        · by_cases hyz : y.toNat < z.toNat
          · have hxz : x.toNat < z.toNat := Nat.lt_trans hxy hyz
            simp [hxz]
          · by_cases hzy : z.toNat < y.toNat
            · simp [hyz, hzy] at hbc
            · have hyz2 : y.toNat = z.toNat := Nat.le_antisymm (Nat.le_of_not_lt hzy) (Nat.le_of_not_lt hyz)
              have hxz : x.toNat < z.toNat := hyz2 ▸ hxy
              simp [hxz]
        · by_cases hyx : y.toNat < x.toNat
          · simp [hxy, hyx] at hab
          · have hxy2 : x.toNat = y.toNat := Nat.le_antisymm (Nat.le_of_not_lt hyx) (Nat.le_of_not_lt hxy)
            simp only [if_neg hxy, if_neg hyx] at hab
            by_cases hyz : y.toNat < z.toNat
            · have hxz : x.toNat < z.toNat := hxy2 ▸ hyz
              simp [hxz]
            · by_cases hzy : z.toNat < y.toNat
              · simp [hyz, hzy] at hbc
              · simp only [if_neg hyz, if_neg hzy] at hbc
                have hxz : ¬ x.toNat < z.toNat := by omega
                have hzx : ¬ z.toNat < x.toNat := by omega
                simp [if_neg hxz, if_neg hzx, ih hab hbc]

theorem clLt_asymm {a b : List Char} (h : clLt a b = true) : clLt b a = false := by
  by_contra hc
  rw [Bool.not_eq_false] at hc
  have h1 := clLt_trans h hc
  rw [clLt_irrefl] at h1
  exact Bool.false_ne_true h1

theorem clLt_trichotomy (a b : List Char) :
    clLt a b = true ∨ a = b ∨ clLt b a = true := by
  induction a generalizing b with
  | nil =>
    cases b with
    | nil => right; left; rfl
    | cons y ys => left; simp [clLt]
  | cons x xs ih =>
    cases b with
    | nil => right; right; simp [clLt]
    | cons y ys =>
      rcases Nat.lt_trichotomy x.toNat y.toNat with hxy | hxy | hxy
      · left; simp [clLt, hxy]
      · have hx : x = y := char_toNat_inj hxy
        subst hx
        rcases ih ys with h | h | h
        · left; simp [clLt, h]
        · right; left; rw [h]
        · right; right; simp [clLt, h]
      · right; right; simp [clLt, hxy]

theorem strLt_trans {a b c : String} (hab : strLt a b = true) (hbc : strLt b c = true) :
    strLt a c = true := clLt_trans hab hbc

theorem strLt_asymm {a b : String} (h : strLt a b = true) : strLt b a = false :=
  clLt_asymm h

theorem strLt_trichotomy (a b : String) :
    strLt a b = true ∨ a = b ∨ strLt b a = true := by
  rcases clLt_trichotomy a.data b.data with h | h | h
  · left; exact h
  · right; left; exact String.ext h
  · right; right; exact h

/-! ### GoldskyCheckpoint and its comparison operators -/

/-- `GoldskyCheckpoint` dataclass: fields in the source declaration order
`(job_id, timestamp, worker_checkpoint)`. -/
structure GoldskyCheckpoint where
  job_id : String
  timestamp : Int
  worker_checkpoint : Int
deriving DecidableEq, Repr

/-- `GoldskyCheckpoint.__lt__`: compares `timestamp`, then `job_id`, then
`worker_checkpoint`, with the exact branch structure of the source. -/
def cpLt (a b : GoldskyCheckpoint) : Bool :=
  if a.timestamp < b.timestamp then true
  else
    if a.timestamp ≠ b.timestamp then false
    else
      if strLt a.job_id b.job_id then true
      else
        if a.job_id ≠ b.job_id then false
        else a.worker_checkpoint < b.worker_checkpoint

/-- `GoldskyCheckpoint.__le__`: equal or less-than. -/
def cpLe (a b : GoldskyCheckpoint) : Bool :=
  if a = b then true else cpLt a b

/-- `GoldskyCheckpoint.__gt__`: not equal and reverse less-than. -/
def cpGt (a b : GoldskyCheckpoint) : Bool :=
  if a = b then false else cpLt b a

/-- `GoldskyCheckpoint.__ge__`: equal or greater-than. -/
def cpGe (a b : GoldskyCheckpoint) : Bool :=
  if a = b then true else cpGt a b

/-- The specification's order, written exactly as the spec states it:
tuple-lexicographic order on `(timestamp, job_id, worker_checkpoint)`. -/
def tupleLexLt (a b : GoldskyCheckpoint) : Prop :=
  a.timestamp < b.timestamp ∨
    (a.timestamp = b.timestamp ∧
      (strLt a.job_id b.job_id = true ∨
        (a.job_id = b.job_id ∧ a.worker_checkpoint < b.worker_checkpoint)))

theorem cpLt_iff_tupleLexLt (a b : GoldskyCheckpoint) :
    cpLt a b = true ↔ tupleLexLt a b := by
  unfold cpLt tupleLexLt
  by_cases h1 : a.timestamp < b.timestamp
  · simp [h1]
  · by_cases h2 : a.timestamp = b.timestamp
    · by_cases h3 : strLt a.job_id b.job_id
      · simp [h1, h2, h3]
      · by_cases h4 : a.job_id = b.job_id
        · simp [h1, h2, h3, h4, decide_eq_true_iff]
        · simp [h1, h2, h3, h4]
    · simp [h1, h2]

theorem cpLt_irrefl (a : GoldskyCheckpoint) : cpLt a a = false := by
  simp [cpLt, clLt_irrefl, strLt]

theorem cpLt_trans {a b c : GoldskyCheckpoint} (hab : cpLt a b = true)
    (hbc : cpLt b c = true) : cpLt a c = true := by
  rw [cpLt_iff_tupleLexLt] at hab hbc ⊢
  unfold tupleLexLt at hab hbc ⊢
  rcases hab with h | ⟨he, h⟩
  · rcases hbc with h2 | ⟨he2, _⟩
    · left; omega
    · left; omega
  · rcases hbc with h2 | ⟨he2, h2⟩
    · left; omega
    · right
      refine ⟨by omega, ?_⟩
      rcases h with h | ⟨hj, h⟩
      · rcases h2 with h2 | ⟨hj2, _⟩
        · exact Or.inl (strLt_trans h h2)
        · exact Or.inl (hj2 ▸ h)
      · rcases h2 with h2 | ⟨hj2, h2⟩
        · exact Or.inl (hj ▸ h2)
        · exact Or.inr ⟨hj.trans hj2, by omega⟩

theorem cpLt_asymm {a b : GoldskyCheckpoint} (h : cpLt a b = true) : cpLt b a = false := by
  by_contra hc
  rw [Bool.not_eq_false] at hc
  have h1 := cpLt_trans h hc
  rw [cpLt_irrefl] at h1
  exact Bool.false_ne_true h1

theorem cpLt_trichotomy (a b : GoldskyCheckpoint) :
    cpLt a b = true ∨ a = b ∨ cpLt b a = true := by
  rcases Int.lt_trichotomy a.timestamp b.timestamp with ht | ht | ht
  · left; rw [cpLt_iff_tupleLexLt]; exact Or.inl ht
  · rcases strLt_trichotomy a.job_id b.job_id with hj | hj | hj
    · left; rw [cpLt_iff_tupleLexLt]; exact Or.inr ⟨ht, Or.inl hj⟩
    · rcases Int.lt_trichotomy a.worker_checkpoint b.worker_checkpoint with hw | hw | hw
      · left; rw [cpLt_iff_tupleLexLt]; exact Or.inr ⟨ht, Or.inr ⟨hj, hw⟩⟩
      · right; left
        cases a; cases b
        simp only at ht hj hw
        simp [ht, hj, hw]
      · right; right; rw [cpLt_iff_tupleLexLt]
        exact Or.inr ⟨ht.symm, Or.inr ⟨hj.symm, hw⟩⟩
    · right; right; rw [cpLt_iff_tupleLexLt]; exact Or.inr ⟨ht.symm, Or.inl hj⟩
  · right; right; rw [cpLt_iff_tupleLexLt]; exact Or.inl ht

theorem cpLe_iff (a b : GoldskyCheckpoint) :
    cpLe a b = true ↔ (cpLt a b = true ∨ a = b) := by
  unfold cpLe
  by_cases h : a = b
  · simp [h]
  · simp [h]

theorem cpGe_iff (a b : GoldskyCheckpoint) :
    cpGe a b = true ↔ (cpLt b a = true ∨ a = b) := by
  unfold cpGe cpGt
  by_cases h : a = b
  · simp [h]
  · simp [h]

theorem not_cpGe_iff_cpLt (a b : GoldskyCheckpoint) :
    cpGe a b = false ↔ cpLt a b = true := by
  constructor
  · intro h
    rcases cpLt_trichotomy a b with h1 | h1 | h1
    · exact h1
    · rw [(cpGe_iff a b).mpr (Or.inr h1)] at h; exact absurd h (by simp)
    · rw [(cpGe_iff a b).mpr (Or.inl h1)] at h; exact absurd h (by simp)
  · intro h
    by_contra hc
    rw [Bool.not_eq_false, cpGe_iff] at hc
    rcases hc with hc | hc
    · have := cpLt_asymm h
      rw [this] at hc; exact Bool.false_ne_true hc
    · subst hc; rw [cpLt_irrefl] at h; exact Bool.false_ne_true h

/-- C5: the comparison operators on `GoldskyCheckpoint` form a total order
that is antisymmetric and transitive and coincides with tuple-lexicographic
order on `(timestamp, job_id, worker_checkpoint)`; `a ≤ b` iff `a < b` or
`a = b`. -/
theorem C5_checkpoint_total_order :
    (∀ a b : GoldskyCheckpoint, cpLt a b = true ↔ tupleLexLt a b)
    ∧ (∀ a b : GoldskyCheckpoint, cpLe a b = true ↔ (cpLt a b = true ∨ a = b))
    ∧ (∀ a b : GoldskyCheckpoint, cpLe a b = true → cpLe b a = true → a = b)
    ∧ (∀ a b c : GoldskyCheckpoint, cpLt a b = true → cpLt b c = true → cpLt a c = true)
    ∧ (∀ a b : GoldskyCheckpoint, cpLe a b = true ∨ cpLe b a = true) := by
  refine ⟨cpLt_iff_tupleLexLt, cpLe_iff, ?_, fun a b c => cpLt_trans, ?_⟩
  · intro a b hab hba
    rw [cpLe_iff] at hab hba
    rcases hab with hab | hab
    · rcases hba with hba | hba
      · have := cpLt_asymm hab
        rw [this] at hba; exact absurd hba Bool.false_ne_true
      · exact hba.symm
    · exact hab
  · intro a b
    rcases cpLt_trichotomy a b with h | h | h
    · exact Or.inl ((cpLe_iff a b).mpr (Or.inl h))
    · exact Or.inl ((cpLe_iff a b).mpr (Or.inr h))
    · exact Or.inr ((cpLe_iff b a).mpr (Or.inl h))

/-- Witness for C5 at concrete checkpoints. -/
theorem C5_checkpoint_total_order_witness :
    (⟨"a", 1, 2⟩ : GoldskyCheckpoint) = ⟨"a", 1, 2⟩ :=
  C5_checkpoint_total_order.2.2.1 ⟨"a", 1, 2⟩ ⟨"a", 1, 2⟩ (by decide) (by decide)

/-! ### GoldskyCheckpointRange -/

/-- `GoldskyCheckpointRange`: `_start` defaults to `GoldskyCheckpoint("0", 0, 0)`,
`_end = None` means unbounded.  The source field `_end` is called `stop` here
because `end` is reserved in Lean. -/
structure GoldskyCheckpointRange where
  start : GoldskyCheckpoint
  stop : Option GoldskyCheckpoint
deriving DecidableEq, Repr

/-- The `GoldskyCheckpointRange.__init__` defaulting logic. -/
def mkCheckpointRange (s e : Option GoldskyCheckpoint) : GoldskyCheckpointRange :=
  { start := s.getD ⟨"0", 0, 0⟩, stop := e }

/-- `GoldskyCheckpointRange.in_range`. -/
def GoldskyCheckpointRange.in_range (r : GoldskyCheckpointRange)
    (checkpoint : GoldskyCheckpoint) : Bool :=
  if cpGe checkpoint r.start then
    match r.stop with
    | none => true
    | some e => cpLt checkpoint e
  else false

/-! ### Object-name parsing

`GoldskyAsset.goldsky_re` is the pattern
`{dir}/{source}/(\d+)-(uuid)-(\d+)-(\d+).parquet` matched with `re.match`
(anchored at the start only; the `.` before `parquet` is the regex any-char).
We embed it as a character-list parser; the only spot where regex
backtracking is observable is the checkpoint digits followed by
`.parquet`, which `backtrackDigits` implements (longest digit run first). -/

/-- The result of a successful `goldsky_re` match: the four named groups
plus the character matched by the `.` before `parquet` (kept so that
`group(0)` can be reconstructed). -/
structure Parsed where
  timestamp : String
  job_id : String
  worker : String
  checkpoint : String
  sep : Char
deriving DecidableEq, Repr

/-- `match.group(0)`: the full matched text (the name may have trailing
characters after `parquet` that are not part of the match). -/
def Parsed.group0 (pfx : String) (p : Parsed) : String :=
  pfx ++ "/" ++ p.timestamp ++ "-" ++ p.job_id ++ "-" ++ p.worker ++ "-"
    ++ p.checkpoint ++ String.singleton p.sep ++ "parquet"

/-- Lowercase hex character class `[0-9a-f]`. -/
def isHexLower (c : Char) : Bool := c.isDigit || (decide ('a' ≤ c) && decide (c ≤ 'f'))

/-- Maximal digit run at the head of the list. -/
def digitSpan : List Char → List Char × List Char
  | [] => ([], [])
  | c :: cs =>
    if c.isDigit then
      let p := digitSpan cs
      (c :: p.1, p.2)
    else ([], c :: cs)

/-- Expect one literal character. -/
def expectChar (c : Char) : List Char → Option (List Char)
  | x :: xs => if x = c then some xs else none
  | [] => none

/-- Expect a literal character sequence; returns the remainder. -/
def expectLit : List Char → List Char → Option (List Char)
  | [], rest => some rest
  | _ :: _, [] => none
  | l :: ls, x :: xs => if x = l then expectLit ls xs else none

/-- Exactly `n` lowercase hex characters. -/
def parseHexN : Nat → List Char → Option (List Char × List Char)
  | 0, rest => some ([], rest)
  | _ + 1, [] => none
  | n + 1, c :: cs =>
    if isHexLower c then (parseHexN n cs).map (fun p => (c :: p.1, p.2)) else none

/-- The 8-4-4-4-12 UUID shape, hyphens included in the captured group. -/
def parseUuid (cs : List Char) : Option (List Char × List Char) :=
  match parseHexN 8 cs with
  | none => none
  | some (g1, r) =>
  match expectChar '-' r with
  | none => none
  | some r =>
  match parseHexN 4 r with
  | none => none
  | some (g2, r) =>
  match expectChar '-' r with
  | none => none
  | some r =>
  match parseHexN 4 r with
  | none => none
  | some (g3, r) =>
  match expectChar '-' r with
  | none => none
  | some r =>
  match parseHexN 4 r with
  | none => none
  | some (g4, r) =>
  match expectChar '-' r with
  | none => none
  | some r =>
  match parseHexN 12 r with
  | none => none
  | some (g5, r) =>
    some (g1 ++ ['-'] ++ g2 ++ ['-'] ++ g3 ++ ['-'] ++ g4 ++ ['-'] ++ g5, r)

/-- Greedy `\d+` with backtracking, fuelled by the run length: try the
full digit run `ds`, then shorter and shorter nonempty runs, moving
surplus digits back onto the remainder, until the continuation succeeds. -/
def backtrackDigitsFuel {α : Type} :
    Nat → List Char → List Char → (List Char → List Char → Option α) → Option α
  | 0, ds, rest, k => k ds rest
  | fuel + 1, ds, rest, k =>
    if ds.length ≤ 1 then k ds rest
    else
      match k ds rest with
      | some a => some a
      | none =>
        match ds.getLast? with
        | none => none
        | some c => backtrackDigitsFuel fuel ds.dropLast (c :: rest) k

/-- Greedy `\d+` with backtracking (`ds.length` shrinks by one per retry,
so it is also enough fuel). -/
def backtrackDigits {α : Type} (ds rest : List Char)
    (k : List Char → List Char → Option α) : Option α :=
  backtrackDigitsFuel ds.length ds rest k

/-- Continuation for the checkpoint group: `(any char)parquet` and then
anything (the match is not end-anchored). -/
def parseCkTail (ds rest : List Char) : Option (String × Char) :=
  match rest with
  | c :: rest2 =>
    match expectLit "parquet".data rest2 with
    | some _ => some (String.mk ds, c)
    | none => none
  | [] => none

/-- `re.match(goldsky_re, name)` where `pfx` is
`os.path.join(source_goldsky_dir, source_name)`. -/
def goldskyMatch (pfx name : String) : Option Parsed :=
  match expectLit pfx.data name.data with
  | none => none
  | some r =>
  match expectChar '/' r with
  | none => none
  | some r =>
  match digitSpan r with
  | (tds, r) =>
  if tds.isEmpty then none else
  match expectChar '-' r with
  | none => none
  | some r =>
  match parseUuid r with
  | none => none
  | some (uu, r) =>
  match expectChar '-' r with
  | none => none
  | some r =>
  match digitSpan r with
  | (wds, r) =>
  if wds.isEmpty then none else
  match expectChar '-' r with
  | none => none
  | some r =>
  match digitSpan r with
  | (cds, r) =>
  if cds.isEmpty then none else
  match backtrackDigits cds r parseCkTail with
  | none => none
  | some (ck, sep) => some ⟨String.mk tds, String.mk uu, String.mk wds, ck, sep⟩

/-- Python `int()` on a digit string. -/
def strToNat (s : String) : Nat :=
  s.data.foldl (fun a c => a * 10 + (c.toNat - '0'.toNat)) 0

theorem parseHexN_ne_nil {n : Nat} {cs l r : List Char}
    (h : parseHexN (n + 1) cs = some (l, r)) : l ≠ [] := by
  match cs with
  | [] => simp [parseHexN] at h
  | c :: cs2 =>
    simp only [parseHexN] at h
    by_cases hc : isHexLower c
    · rw [if_pos hc] at h
      match hp : parseHexN n cs2 with
      | none => rw [hp] at h; simp at h
      | some q =>
        rw [hp] at h
        simp only [Option.map_some', Option.some.injEq, Prod.mk.injEq] at h
        rcases h with ⟨hl, _⟩
        rw [← hl]
        simp
    · rw [if_neg hc] at h; simp at h

theorem parseUuid_ne_nil {cs l r : List Char} (h : parseUuid cs = some (l, r)) :
    l ≠ [] := by
  unfold parseUuid at h
  split at h
  · exact Option.noConfusion h
  · rename_i g1 r0 h1
    have hne := parseHexN_ne_nil h1
    repeat'
      first
      | (exact Option.noConfusion h)
      | (split at h)
    simp only [Option.some.injEq, Prod.mk.injEq] at h
    rcases h with ⟨hl, _⟩
    rw [← hl]
    intro hc
    simp only [List.append_eq_nil] at hc
    exact hne hc.1.1.1.1.1.1.1.1

/-- Any successful match captures a nonempty `job_id` group (it has the
8-4-4-4-12 UUID shape). -/
theorem goldskyMatch_job_id_ne_empty {pfx name : String} {p : Parsed}
    (h : goldskyMatch pfx name = some p) : p.job_id ≠ "" := by
  unfold goldskyMatch at h
  cases h1 : expectLit pfx.data name.data with
  | none => simp [h1] at h
  | some r1 =>
  simp only [h1] at h
  cases h2 : expectChar '/' r1 with
  | none => simp [h2] at h
  | some r2 =>
  simp only [h2] at h
  rcases h3 : digitSpan r2 with ⟨tds, r3⟩
  simp only [h3] at h
  by_cases h4 : tds.isEmpty
  · simp [h4] at h
  · simp only [h4, if_false, Bool.false_eq_true] at h
    cases h5 : expectChar '-' r3 with
    | none => simp [h5] at h
    | some r4 =>
    simp only [h5] at h
    cases h6 : parseUuid r4 with
    | none => simp [h6] at h
    | some ur =>
    rcases ur with ⟨uu, r5⟩
    simp only [h6] at h
    cases h7 : expectChar '-' r5 with
    | none => simp [h7] at h
    | some r6 =>
    simp only [h7] at h
    rcases h8 : digitSpan r6 with ⟨wds, r7⟩
    simp only [h8] at h
    by_cases h9 : wds.isEmpty
    · simp [h9] at h
    · simp only [h9, if_false, Bool.false_eq_true] at h
      cases h10 : expectChar '-' r7 with
      | none => simp [h10] at h
      | some r8 =>
      simp only [h10] at h
      rcases h11 : digitSpan r8 with ⟨cds, r9⟩
      simp only [h11] at h
      by_cases h12 : cds.isEmpty
      · simp [h12] at h
      · simp only [h12, if_false, Bool.false_eq_true] at h
        cases h13 : backtrackDigits cds r9 parseCkTail with
        | none => simp [h13] at h
        | some cksep =>
        rcases cksep with ⟨ck, sep⟩
        simp only [h13, Option.some.injEq] at h
        have huu := parseUuid_ne_nil h6
        rw [← h]
        simp only [ne_eq]
        intro hj
        have hnil : uu = ([] : List Char) := by
          have := congrArg String.data hj
          simpa using this
        exact huu hnil

/-! ### GoldskyQueueItem and the per-worker queue

The source keeps the queue as a Python `heapq` (binary min-heap) list.  We
model the heap as a list ordered by the same comparison the heap uses:
`heappush` inserts the new element (comparing it against existing elements,
so comparisons against `None` raise exactly when the heap is non-empty) and
`heappop` removes a minimal element (the head). -/

/-- `GoldskyQueueItem` dataclass; `blob_match` holds the regex match. -/
structure GoldskyQueueItem where
  checkpoint : GoldskyCheckpoint
  blob_name : String
  blob_match : Parsed
deriving DecidableEq, Repr

/-- An element of the Python heap list.  `GoldskyQueue.enqueue` is normally
called with a real item, but `GoldskyQueues.peek` pushes back the result of
`dequeue`, which may be `None`, so the heap may hold `None`. -/
abbrev HElem := Option GoldskyQueueItem

/-- `GoldskyQueueItem.__lt__` as used by `heapq`.  Comparing `None` with
anything raises in Python (`TypeError` for `None < item`, `AttributeError`
inside `__lt__` for `item < None`); both become errors here. -/
def elemLt : HElem → HElem → Except String Bool
  | some a, some b => .ok (cpLt a.checkpoint b.checkpoint)
  | _, _ => .error "TypeError: comparison with None"

/-- `heapq.heappush` on the ordered-list model: insert before the first
strictly greater element.  Pushing onto an empty heap performs no
comparison (as in `heapq`); pushing onto a non-empty heap starts by
comparing against an existing element. -/
def hpush (x : HElem) : List HElem → Except String (List HElem)
  | [] => .ok [x]
  | y :: ys =>
    match elemLt x y with
    | .error e => .error e
    | .ok b =>
      if b then .ok (x :: y :: ys)
      else
        match hpush x ys with
        | .error e => .error e
        | .ok t => .ok (y :: t)

/-- `GoldskyQueue`: heap list, `_dequeues` counter and `max_size`. -/
structure GoldskyQueue where
  queue : List HElem
  dequeues : Nat
  maxSize : Nat
deriving DecidableEq, Repr

/-- `GoldskyQueue.enqueue`: `heapq.heappush(self.queue, item)`; no cap is
enforced on insertion. -/
def GoldskyQueue.enqueue (q : GoldskyQueue) (x : HElem) : Except String GoldskyQueue :=
  match hpush x q.queue with
  | .error e => .error e
  | .ok l => .ok { q with queue := l }

/-- `GoldskyQueue.dequeue`: returns `None` once `_dequeues > max_size - 1`
(Python integer arithmetic, hence the `Int` casts); otherwise pops the heap
minimum, counting the pop — the popped element is returned even when it is
the `None` pushed by `peek`.  An empty heap raises `IndexError`, which the
source catches and maps to `None` without counting. -/
def GoldskyQueue.dequeue (q : GoldskyQueue) : Option GoldskyQueueItem × GoldskyQueue :=
  if (q.dequeues : Int) > (q.maxSize : Int) - 1 then (none, q)
  else
    match q.queue with
    | [] => (none, q)
    | x :: xs => (x, { q with queue := xs, dequeues := q.dequeues + 1 })

/-- `GoldskyQueue.len`. -/
def GoldskyQueue.len (q : GoldskyQueue) : Nat := q.queue.length

/-- `GoldskyQueue.empty` (clears the heap). -/
def GoldskyQueue.clear (q : GoldskyQueue) : GoldskyQueue := { q with queue := [] }

/-- `GoldskyQueues`: insertion-ordered mapping worker id → queue (Python
dicts preserve insertion order). -/
structure GoldskyQueues where
  queues : List (String × GoldskyQueue)
  maxSize : Nat
deriving DecidableEq, Repr

/-- Dict lookup in the insertion-ordered association list. -/
def lookupQueue : List (String × GoldskyQueue) → String → Option GoldskyQueue
  | [], _ => none
  | (k, v) :: rest, w => if k = w then some v else lookupQueue rest w

/-- Dict store: replace in place, or append a new key at the end. -/
def setQueue : List (String × GoldskyQueue) → String → GoldskyQueue → List (String × GoldskyQueue)
  | [], w, q => [(w, q)]
  | (k, v) :: rest, w, q => if k = w then (k, q) :: rest else (k, v) :: setQueue rest w q

/-- `GoldskyQueues.enqueue`: lazily creates the worker's queue with the
shared `max_size`. -/
def GoldskyQueues.enqueue (qs : GoldskyQueues) (worker : String) (item : HElem) :
    Except String GoldskyQueues :=
  match ((lookupQueue qs.queues worker).getD ⟨[], 0, qs.maxSize⟩).enqueue item with
  | .error e => .error e
  | .ok q2 => .ok ⟨setQueue qs.queues worker q2, qs.maxSize⟩

/-- `GoldskyQueues.dequeue`.  When the worker has no queue, a fresh queue is
consulted and then discarded (the source never stores it back). -/
def GoldskyQueues.dequeue (qs : GoldskyQueues) (worker : String) :
    Option GoldskyQueueItem × GoldskyQueues :=
  match lookupQueue qs.queues worker with
  | some q => ((q.dequeue).1, ⟨setQueue qs.queues worker (q.dequeue).2, qs.maxSize⟩)
  | none => ((GoldskyQueue.dequeue ⟨[], 0, qs.maxSize⟩).1, qs)

/-- `GoldskyQueues.peek`: dequeues from the first worker's queue and pushes
the result back — even when that result is `None`. -/
def GoldskyQueues.peek (qs : GoldskyQueues) :
    Except String (Option GoldskyQueueItem × GoldskyQueues) :=
  match qs.queues with
  | [] => .ok (none, qs)
  | (w, q) :: rest =>
    match ((q.dequeue).2).enqueue (q.dequeue).1 with
    | .error e => .error e
    | .ok q3 => .ok ((q.dequeue).1, ⟨(w, q3) :: rest, qs.maxSize⟩)

/-- All heap elements are real items (no `None` was pushed). -/
abbrev AllSome (l : List HElem) : Prop := ∀ x ∈ l, x.isSome = true

/-- Adjacent non-decreasing order of heap elements (`hle x y` = "`y` is not
less than `x`"); vacuously true when either is `None`. -/
def hle : HElem → HElem → Bool
  | some a, some b => ! cpLt b.checkpoint a.checkpoint
  | _, _ => true

/-- Adjacent sortedness of the heap list. -/
def sortedB : List HElem → Bool
  | [] => true
  | [_] => true
  | x :: y :: rest => hle x y && sortedB (y :: rest)

/-- Run `dequeue` `n` times, collecting the returned values. -/
def dequeueRun : GoldskyQueue → Nat → List (Option GoldskyQueueItem)
  | _, 0 => []
  | q, n + 1 => (q.dequeue).1 :: dequeueRun (q.dequeue).2 n

/-- Number of successful dequeues in a run. -/
def countSome (l : List (Option GoldskyQueueItem)) : Nat :=
  (l.filter Option.isSome).length

theorem cpLt_false_trans {x y z : GoldskyCheckpoint}
    (h1 : cpLt x y = false) (h2 : cpLt y z = false) : cpLt x z = false := by
  by_contra hc
  rw [Bool.not_eq_false] at hc
  rcases cpLt_trichotomy x y with hxy | hxy | hxy
  · rw [hxy] at h1; exact absurd h1 (by simp)
  · subst hxy
    rw [hc] at h2; exact absurd h2 (by simp)
  · have h3 := cpLt_trans hxy hc
    rw [h3] at h2; exact absurd h2 (by simp)

theorem hle_trans_some {a b c : GoldskyQueueItem}
    (h1 : hle (some a) (some b) = true) (h2 : hle (some b) (some c) = true) :
    hle (some a) (some c) = true := by
  simp only [hle, Bool.not_eq_true'] at h1 h2 ⊢
  exact cpLt_false_trans h2 h1

theorem sortedB_tail {x : HElem} {l : List HElem} (h : sortedB (x :: l) = true) :
    sortedB l = true := by
  cases l with
  | nil => rfl
  | cons y ys =>
    simp only [sortedB, Bool.and_eq_true] at h
    exact h.2

theorem sortedB_cons_hle {x y : HElem} {l : List HElem}
    (h : sortedB (x :: y :: l) = true) : hle x y = true := by
  simp only [sortedB, Bool.and_eq_true] at h
  exact h.1

theorem sortedB_head_min : ∀ (l : List HElem) (a : GoldskyQueueItem),
    sortedB (some a :: l) = true → AllSome l →
    ∀ x ∈ l, hle (some a) x = true := by
  intro l
  induction l with
  | nil => intro a _ _ x hx; exact absurd hx (List.not_mem_nil x)
  | cons y ys ih =>
    intro a hs hall x hx
    rcases List.mem_cons.mp hx with heq | hmem
    · subst heq; exact sortedB_cons_hle hs
    · have hy : y.isSome = true := hall y (List.mem_cons_self y ys)
      obtain ⟨b, rfl⟩ := Option.isSome_iff_exists.mp hy
      have hstep : hle (some a) (some b) = true := sortedB_cons_hle hs
      have hys : AllSome ys := fun z hz => hall z (List.mem_cons_of_mem _ hz)
      have htl : sortedB (some b :: ys) = true := sortedB_tail hs
      have hx2 := ih b htl hys x hmem
      have hxs : x.isSome = true := hys x hmem
      obtain ⟨c, rfl⟩ := Option.isSome_iff_exists.mp hxs
      exact hle_trans_some hstep hx2

/-- The full specification of pushing a real item onto an all-real heap:
it succeeds, grows the heap by one, permutes to a cons, exposes either the
new item or the old head at the front, and preserves sortedness. -/
theorem hpush_some_spec (i : GoldskyQueueItem) :
    ∀ l : List HElem, AllSome l →
      ∃ l2, hpush (some i) l = .ok l2 ∧ AllSome l2
        ∧ l2.length = l.length + 1
        ∧ l2.Perm (some i :: l)
        ∧ (l2.head? = some (some i) ∨ l2.head? = l.head?)
        ∧ (sortedB l = true → sortedB l2 = true) := by
  intro l
  induction l with
  | nil =>
    intro _
    refine ⟨[some i], rfl, ?_, rfl, List.Perm.refl _, Or.inl rfl, fun _ => rfl⟩
    intro x hx
    rw [List.mem_singleton.mp hx]
    rfl
  | cons y ys ih =>
    intro hall
    have hy : y.isSome = true := hall y (List.mem_cons_self y ys)
    obtain ⟨b, rfl⟩ := Option.isSome_iff_exists.mp hy
    have hys : AllSome ys := fun z hz => hall z (List.mem_cons_of_mem _ hz)
    by_cases hlt : cpLt i.checkpoint b.checkpoint = true
    · refine ⟨some i :: some b :: ys, ?_, ?_, by simp, List.Perm.refl _, Or.inl rfl, ?_⟩
      · simp [hpush, elemLt, hlt]
      · intro x hx
        rcases List.mem_cons.mp hx with hx | hx
        · rw [hx]; rfl
        · exact hall x hx
      · intro hs
        have hba : cpLt b.checkpoint i.checkpoint = false := cpLt_asymm hlt
        simp only [sortedB, hle, hba, Bool.not_false, Bool.and_eq_true]
        exact ⟨by simp, hs⟩
    · obtain ⟨t, ht, hAll, hlen, hperm, hhead, hsort⟩ := ih hys
      have hlt2 : cpLt i.checkpoint b.checkpoint = false := Bool.eq_false_iff.mpr hlt
      refine ⟨some b :: t, ?_, ?_, by simp [hlen], ?_, Or.inr rfl, ?_⟩
      · simp [hpush, elemLt, hlt2, ht]
      · intro x hx
        rcases List.mem_cons.mp hx with hx | hx
        · rw [hx]; rfl
        · exact hAll x hx
      · exact (List.Perm.cons _ hperm).trans (List.Perm.swap _ _ _)
      · intro hs
        cases ht0 : t with
        | nil => rw [ht0] at hlen; simp at hlen
        | cons t0 t1 =>
          have hst : sortedB t = true := hsort (sortedB_tail hs)
          have hht : hle (some b) t0 = true := by
            rcases hhead with hh | hh
            · rw [ht0] at hh
              simp only [List.head?] at hh
              cases hh
              simp only [hle, hlt2, Bool.not_false]
            · rw [ht0] at hh
              cases ys with
              | nil => simp at hh
              | cons z zs =>
                simp only [List.head?] at hh
                cases hh
                exact sortedB_cons_hle hs
          rw [ht0] at hst
          simp only [sortedB, Bool.and_eq_true]
          exact ⟨hht, hst⟩

/-- Once the dequeue counter has reached `max_size`, `dequeue` returns
empty without touching the queue. -/
theorem dequeue_capped {q : GoldskyQueue} (h : q.maxSize ≤ q.dequeues) :
    q.dequeue = (none, q) := by
  unfold GoldskyQueue.dequeue
  rw [if_pos (by omega)]

/-- Below the cap, `dequeue` pops the head and counts the pop. -/
theorem dequeue_cons {q : GoldskyQueue} {x : HElem} {xs : List HElem}
    (hq : q.queue = x :: xs) (h : q.dequeues < q.maxSize) :
    q.dequeue = (x, { q with queue := xs, dequeues := q.dequeues + 1 }) := by
  unfold GoldskyQueue.dequeue
  rw [if_neg (by omega), hq]

/-- Below the cap, `dequeue` on an empty heap returns `None` unchanged. -/
theorem dequeue_nil {q : GoldskyQueue} (hq : q.queue = []) :
    q.dequeue = (none, q) := by
  unfold GoldskyQueue.dequeue
  by_cases hc : (q.dequeues : Int) > (q.maxSize : Int) - 1
  · rw [if_pos hc]
  · rw [if_neg hc, hq]

theorem dequeue_dequeues_le (q : GoldskyQueue) :
    q.dequeues ≤ (q.dequeue).2.dequeues ∧ (q.dequeue).2.maxSize = q.maxSize := by
  unfold GoldskyQueue.dequeue
  by_cases h : (q.dequeues : Int) > (q.maxSize : Int) - 1
  · rw [if_pos h]; exact ⟨Nat.le_refl _, rfl⟩
  · rw [if_neg h]
    cases hq : q.queue with
    | nil => exact ⟨Nat.le_refl _, rfl⟩
    | cons x xs => exact ⟨Nat.le_succ _, rfl⟩

theorem dequeue_isSome_spec {q : GoldskyQueue}
    (h : (q.dequeue).1.isSome = true) :
    (q.dequeue).2.dequeues = q.dequeues + 1 ∧ q.dequeues < q.maxSize := by
  by_cases hc : q.dequeues < q.maxSize
  · cases hq : q.queue with
    | nil =>
      rw [dequeue_nil hq] at h
      simp at h
    | cons x xs =>
      rw [dequeue_cons hq hc]
      exact ⟨rfl, hc⟩
  · rw [dequeue_capped (by omega)] at h
    simp at h

/-- A dequeue run can return at most `max_size - _dequeues` real items. -/
theorem countSome_dequeueRun_le (n : Nat) : ∀ q : GoldskyQueue,
    countSome (dequeueRun q n) ≤ q.maxSize - q.dequeues := by
  induction n with
  | zero => intro q; simp [dequeueRun, countSome]
  | succ n ih =>
    intro q
    have hmono := dequeue_dequeues_le q
    have hbound := ih (q.dequeue).2
    show countSome ((q.dequeue).1 :: dequeueRun (q.dequeue).2 n) ≤ q.maxSize - q.dequeues
    cases hr : (q.dequeue).1 with
    | none =>
      have heq : countSome (none :: dequeueRun (q.dequeue).2 n)
          = countSome (dequeueRun (q.dequeue).2 n) := by simp [countSome]
      rw [heq]
      rw [hmono.2] at hbound
      exact le_trans hbound (Nat.sub_le_sub_left hmono.1 _)
    | some it =>
      have hsp := dequeue_isSome_spec (q := q) (by rw [hr]; rfl)
      have heq : countSome (some it :: dequeueRun (q.dequeue).2 n)
          = countSome (dequeueRun (q.dequeue).2 n) + 1 := by simp [countSome]
      rw [heq]
      rw [hmono.2, hsp.1] at hbound
      omega

/-- With an all-real heap of at least `n` items and head-room of `n` under
the cap, `n` dequeues all return real items. -/
theorem dequeueRun_success (n : Nat) : ∀ q : GoldskyQueue, AllSome q.queue →
    q.dequeues + n ≤ q.maxSize → n ≤ q.queue.length →
    ∀ r ∈ dequeueRun q n, r.isSome = true := by
  induction n with
  | zero => intro q _ _ _ r hr; simp [dequeueRun] at hr
  | succ n ih =>
    intro q hall hcap hlen r hr
    cases hq : q.queue with
    | nil => rw [hq] at hlen; simp at hlen
    | cons x xs =>
      have hlt : q.dequeues < q.maxSize := by omega
      have hstep := dequeue_cons hq hlt
      show r.isSome = true
      rw [show dequeueRun q (n + 1) = (q.dequeue).1 :: dequeueRun (q.dequeue).2 n from rfl,
        hstep] at hr
      rcases List.mem_cons.mp hr with heq | hmem
      · rw [heq]
        exact hall x (hq ▸ List.mem_cons_self x xs)
      · refine ih _ ?_ ?_ ?_ r hmem
        · intro z hz
          exact hall z (hq ▸ List.mem_cons_of_mem _ hz)
        · show q.dequeues + 1 + n ≤ q.maxSize
          omega
        · show n ≤ xs.length
          rw [hq] at hlen
          simpa using hlen

/-- Consecutive dequeues (with no enqueue in between) from a sorted heap
return non-decreasing checkpoints. -/
theorem dequeue_dequeue_mono {q q1 q2 : GoldskyQueue} {a b : GoldskyQueueItem}
    (hs : sortedB q.queue = true)
    (h1 : q.dequeue = (some a, q1)) (h2 : q1.dequeue = (some b, q2)) :
    cpLt b.checkpoint a.checkpoint = false := by
  by_cases hc : q.dequeues < q.maxSize
  · cases hq : q.queue with
    | nil => rw [dequeue_nil hq] at h1; simp at h1
    | cons x xs =>
      rw [dequeue_cons hq hc] at h1
      rw [Prod.mk.injEq] at h1
      obtain ⟨hx, hq1⟩ := h1
      by_cases hc2 : q1.dequeues < q1.maxSize
      · cases hxs : q1.queue with
        | nil => rw [dequeue_nil hxs] at h2; simp at h2
        | cons y ys =>
          rw [dequeue_cons hxs hc2] at h2
          rw [Prod.mk.injEq] at h2
          obtain ⟨hy, _⟩ := h2
          have hq1q : q1.queue = xs := by rw [← hq1]
          rw [hq1q] at hxs
          rw [hq, hxs, hx, hy] at hs
          have := sortedB_cons_hle hs
          simpa [hle, Bool.not_eq_true'] using this
      · rw [dequeue_capped (by omega)] at h2
        simp at h2
  · rw [dequeue_capped (by omega)] at h1
    simp at h1

/-- Enqueue of a real item onto an all-real queue: always succeeds and
grows the heap by one (no cap on insertion). -/
theorem enqueue_some_spec {q : GoldskyQueue} (i : GoldskyQueueItem)
    (h : AllSome q.queue) :
    ∃ q2, q.enqueue (some i) = .ok q2 ∧ q2.queue.length = q.queue.length + 1
      ∧ q2.dequeues = q.dequeues ∧ q2.maxSize = q.maxSize
      ∧ AllSome q2.queue ∧ q2.queue.Perm (some i :: q.queue)
      ∧ (sortedB q.queue = true → sortedB q2.queue = true) := by
  obtain ⟨l2, hl2, hAll, hlen, hperm, _, hsort⟩ := hpush_some_spec i q.queue h
  refine ⟨{ q with queue := l2 }, ?_, hlen, rfl, rfl, hAll, hperm, hsort⟩
  unfold GoldskyQueue.enqueue
  rw [hl2]

/-- C6 counterexample: over a sequence that interleaves enqueues and
dequeues, successful dequeues are NOT non-decreasing — dequeuing an item
with checkpoint timestamp 5 and then enqueueing and dequeuing one with
timestamp 3 yields a strictly smaller checkpoint on the second dequeue. -/
theorem C6_queue_discipline_counterexample :
    GoldskyQueue.enqueue ⟨[], 0, 10⟩ (some ⟨⟨"j", 5, 0⟩, "b5", ⟨"5", "j", "0", "0", '.'⟩⟩)
      = .ok ⟨[some ⟨⟨"j", 5, 0⟩, "b5", ⟨"5", "j", "0", "0", '.'⟩⟩], 0, 10⟩
    ∧ GoldskyQueue.dequeue ⟨[some ⟨⟨"j", 5, 0⟩, "b5", ⟨"5", "j", "0", "0", '.'⟩⟩], 0, 10⟩
      = (some ⟨⟨"j", 5, 0⟩, "b5", ⟨"5", "j", "0", "0", '.'⟩⟩, ⟨[], 1, 10⟩)
    ∧ GoldskyQueue.enqueue ⟨[], 1, 10⟩ (some ⟨⟨"j", 3, 0⟩, "b3", ⟨"3", "j", "0", "0", '.'⟩⟩)
      = .ok ⟨[some ⟨⟨"j", 3, 0⟩, "b3", ⟨"3", "j", "0", "0", '.'⟩⟩], 1, 10⟩
    ∧ GoldskyQueue.dequeue ⟨[some ⟨⟨"j", 3, 0⟩, "b3", ⟨"3", "j", "0", "0", '.'⟩⟩], 1, 10⟩
      = (some ⟨⟨"j", 3, 0⟩, "b3", ⟨"3", "j", "0", "0", '.'⟩⟩, ⟨[], 2, 10⟩)
    ∧ cpLt (⟨"j", 3, 0⟩ : GoldskyCheckpoint) ⟨"j", 5, 0⟩ = true :=
  ⟨rfl, rfl, rfl, rfl, by decide⟩

/-- C6 (amended): successful dequeues with no intervening enqueue return
items in non-decreasing checkpoint order; on a heap of all real items with
at least `max_size` of them and a fresh counter, the first `max_size`
dequeues all succeed; once `max_size` items have been dequeued every
further dequeue returns empty (leaving the queue untouched) even if the
heap still holds items; and enqueue never rejects an item. -/
theorem C6_queue_discipline_amended :
    (∀ (q q1 q2 : GoldskyQueue) (a b : GoldskyQueueItem),
        sortedB q.queue = true →
        q.dequeue = (some a, q1) → q1.dequeue = (some b, q2) →
        cpLt b.checkpoint a.checkpoint = false)
    ∧ (∀ q : GoldskyQueue, AllSome q.queue → q.dequeues = 0 →
        q.maxSize ≤ q.queue.length →
        ∀ r ∈ dequeueRun q q.maxSize, r.isSome = true)
    ∧ (∀ q : GoldskyQueue, q.maxSize ≤ q.dequeues → q.dequeue = (none, q))
    ∧ (∀ (q : GoldskyQueue) (i : GoldskyQueueItem), AllSome q.queue →
        ∃ q2, q.enqueue (some i) = .ok q2 ∧ q2.queue.length = q.queue.length + 1) := by
  refine ⟨fun q q1 q2 a b hs h1 h2 => dequeue_dequeue_mono hs h1 h2,
    fun q hall hz hlen => dequeueRun_success q.maxSize q hall (by omega) hlen,
    fun q h => dequeue_capped h,
    fun q i hall => ?_⟩
  obtain ⟨q2, h1, h2, _⟩ := enqueue_some_spec i hall
  exact ⟨q2, h1, h2⟩

/-- Witness for the amended C6 at concrete queues. -/
theorem C6_queue_discipline_amended_witness :
    cpLt (⟨"j", 5, 0⟩ : GoldskyCheckpoint) ⟨"j", 3, 0⟩ = false
    ∧ (∀ r ∈ dequeueRun ⟨[some ⟨⟨"j", 3, 0⟩, "b3", ⟨"3", "j", "0", "0", '.'⟩⟩], 0, 1⟩ 1,
        r.isSome = true)
    ∧ GoldskyQueue.dequeue ⟨[some ⟨⟨"j", 3, 0⟩, "b3", ⟨"3", "j", "0", "0", '.'⟩⟩], 2, 2⟩
      = (none, ⟨[some ⟨⟨"j", 3, 0⟩, "b3", ⟨"3", "j", "0", "0", '.'⟩⟩], 2, 2⟩)
    ∧ ∃ q2, GoldskyQueue.enqueue ⟨[], 0, 0⟩
          (some ⟨⟨"j", 3, 0⟩, "b3", ⟨"3", "j", "0", "0", '.'⟩⟩) = .ok q2
        ∧ q2.queue.length = 0 + 1 :=
  ⟨C6_queue_discipline_amended.1
      ⟨[some ⟨⟨"j", 3, 0⟩, "b3", ⟨"3", "j", "0", "0", '.'⟩⟩,
        some ⟨⟨"j", 5, 0⟩, "b5", ⟨"5", "j", "0", "0", '.'⟩⟩], 0, 5⟩
      ⟨[some ⟨⟨"j", 5, 0⟩, "b5", ⟨"5", "j", "0", "0", '.'⟩⟩], 1, 5⟩
      ⟨[], 2, 5⟩
      ⟨⟨"j", 3, 0⟩, "b3", ⟨"3", "j", "0", "0", '.'⟩⟩
      ⟨⟨"j", 5, 0⟩, "b5", ⟨"5", "j", "0", "0", '.'⟩⟩
      (by decide) rfl rfl,
    C6_queue_discipline_amended.2.1
      ⟨[some ⟨⟨"j", 3, 0⟩, "b3", ⟨"3", "j", "0", "0", '.'⟩⟩], 0, 1⟩
      (by decide) rfl (by decide),
    C6_queue_discipline_amended.2.2.1
      ⟨[some ⟨⟨"j", 3, 0⟩, "b3", ⟨"3", "j", "0", "0", '.'⟩⟩], 2, 2⟩
      (by decide),
    C6_queue_discipline_amended.2.2.2
      ⟨[], 0, 0⟩
      ⟨⟨"j", 3, 0⟩, "b3", ⟨"3", "j", "0", "0", '.'⟩⟩
      (by decide)⟩

/-- C10 counterexample: with the first worker's heap non-empty but the
dequeue cap already reached, `peek` raises a comparison TypeError (the
`None` returned by `dequeue` is pushed into a non-empty heap), rather than
re-inserting `None` as the claim states. -/
theorem C10_peek_counterexample :
    GoldskyQueues.peek
        ⟨[("0", ⟨[some ⟨⟨"j", 3, 0⟩, "b3", ⟨"3", "j", "0", "0", '.'⟩⟩], 1, 1⟩)], 1⟩
      = .error "TypeError: comparison with None" := rfl

/-- C10 (amended): when the first worker's queue is non-empty, all-real,
sorted and below its dequeue cap, `peek` returns that queue's minimum item,
leaves the heap holding the same multiset, but permanently increments the
dequeue counter, so at most `max_size - (dequeues + 1)` further dequeues
can succeed; when the underlying dequeue returns empty on an EMPTY heap,
`peek` pushes the `None` result into the heap; when it returns empty
because the cap is reached while the heap is non-empty, `peek` raises a
comparison TypeError. -/
theorem C10_peek_amended :
    (∀ (w : String) (q : GoldskyQueue) (rest : List (String × GoldskyQueue)) (ms : Nat)
        (a : GoldskyQueueItem) (xs : List HElem),
        q.queue = some a :: xs → AllSome q.queue → sortedB q.queue = true →
        q.dequeues < q.maxSize →
        ∃ q3, GoldskyQueues.peek ⟨(w, q) :: rest, ms⟩ = .ok (some a, ⟨(w, q3) :: rest, ms⟩)
          ∧ q3.queue.Perm q.queue
          ∧ q3.dequeues = q.dequeues + 1
          ∧ (∀ x ∈ q.queue, hle (some a) x = true)
          ∧ (∀ n, countSome (dequeueRun q3 n) ≤ q.maxSize - (q.dequeues + 1)))
    ∧ (∀ (w : String) (q : GoldskyQueue) (rest : List (String × GoldskyQueue)) (ms : Nat),
        q.queue = [] →
        GoldskyQueues.peek ⟨(w, q) :: rest, ms⟩
          = .ok (none, ⟨(w, { q with queue := [none] }) :: rest, ms⟩))
    ∧ (∀ (w : String) (q : GoldskyQueue) (rest : List (String × GoldskyQueue)) (ms : Nat)
        (x : HElem) (xs : List HElem),
        q.queue = x :: xs → q.maxSize ≤ q.dequeues →
        GoldskyQueues.peek ⟨(w, q) :: rest, ms⟩ = .error "TypeError: comparison with None") := by
  refine ⟨?_, ?_, ?_⟩
  · intro w q rest ms a xs hq hall hs hcap
    have hdq := dequeue_cons hq hcap
    have hallxs : AllSome xs := by
      intro z hz
      exact hall z (hq ▸ List.mem_cons_of_mem _ hz)
    obtain ⟨q3, henq, hlen, hdqs, hms, hAll, hperm, _⟩ :=
      enqueue_some_spec (q := { q with queue := xs, dequeues := q.dequeues + 1 }) a hallxs
    refine ⟨q3, ?_, ?_, ?_, ?_, ?_⟩
    · simp only [GoldskyQueues.peek, hdq, henq]
    · have : q3.queue.Perm (some a :: xs) := hperm
      rw [hq]
      exact this
    · rw [hdqs]
    · intro x hx
      rw [hq] at hx
      rcases List.mem_cons.mp hx with heq | hmem
      · rw [heq]
        simp [hle, cpLt_irrefl]
      · have hsx : sortedB (some a :: xs) = true := hq ▸ hs
        exact sortedB_head_min xs a hsx hallxs x hmem
    · intro n
      have := countSome_dequeueRun_le n q3
      rw [hdqs, hms] at this
      simpa using this
  · intro w q rest ms hq
    have hdq := dequeue_nil hq
    have henq : q.enqueue none = .ok { q with queue := [none] } := by
      unfold GoldskyQueue.enqueue
      rw [hq]
      rfl
    simp only [GoldskyQueues.peek, hdq, henq]
  · intro w q rest ms x xs hq hcap
    have hdq := dequeue_capped hcap
    have henq : q.enqueue none = .error "TypeError: comparison with None" := by
      unfold GoldskyQueue.enqueue
      rw [hq]
      cases x with
      | none => rfl
      | some it => rfl
    simp only [GoldskyQueues.peek, hdq, henq]

/-- Witness for the amended C10 at a concrete queue set. -/
theorem C10_peek_amended_witness :
    ∃ q3, GoldskyQueues.peek
          ⟨[("0", ⟨[some ⟨⟨"j", 3, 0⟩, "b3", ⟨"3", "j", "0", "0", '.'⟩⟩], 0, 2⟩)], 2⟩
        = .ok (some ⟨⟨"j", 3, 0⟩, "b3", ⟨"3", "j", "0", "0", '.'⟩⟩, ⟨[("0", q3)], 2⟩)
      ∧ q3.queue.Perm [some ⟨⟨"j", 3, 0⟩, "b3", ⟨"3", "j", "0", "0", '.'⟩⟩]
      ∧ q3.dequeues = 0 + 1
      ∧ (∀ x ∈ [some ⟨⟨"j", 3, 0⟩, "b3", ⟨"3", "j", "0", "0", '.'⟩⟩],
          hle (some ⟨⟨"j", 3, 0⟩, "b3", ⟨"3", "j", "0", "0", '.'⟩⟩) x = true)
      ∧ (∀ n, countSome (dequeueRun q3 n) ≤ 2 - (0 + 1)) :=
  C10_peek_amended.1 "0" ⟨[some ⟨⟨"j", 3, 0⟩, "b3", ⟨"3", "j", "0", "0", '.'⟩⟩], 0, 2⟩ [] 2
    ⟨⟨"j", 3, 0⟩, "b3", ⟨"3", "j", "0", "0", '.'⟩⟩ []
    rfl (by decide) (by decide) (by decide)

/-! ### Pointer Store

The BigQuery pointer table is modelled as a list of rows in table order.
The `DELETE ... ; INSERT ...` transaction keeps the rows of other workers
and appends the new row. -/

/-- One row of the pointer table `(worker, job_id, timestamp, checkpoint)`. -/
structure PointerRow where
  worker : String
  job_id : String
  timestamp : Int
  checkpoint : Int
deriving DecidableEq, Repr

/-- The row inserted for `(worker, new_checkpoint)`. -/
def mkPointerRow (worker : String) (c : GoldskyCheckpoint) : PointerRow :=
  ⟨worker, c.job_id, c.timestamp, c.worker_checkpoint⟩

/-- The rows of the pointer table belonging to one worker. -/
def rowsFor (rows : List PointerRow) (worker : String) : List PointerRow :=
  rows.filter (fun r => r.worker = worker)

/-- The `BEGIN TRANSACTION; DELETE FROM pointer WHERE worker = ...;
INSERT INTO pointer VALUES (...); COMMIT;` transaction used by
`DirectGoldskyWorker.update_pointer_table` and by the existing-table branch
of `blocking_update_pointer_table`. -/
def pointer_tx (rows : List PointerRow) (worker : String) (c : GoldskyCheckpoint) :
    List PointerRow :=
  rows.filter (fun r => r.worker ≠ worker) ++ [mkPointerRow worker c]

/-- `DirectGoldskyWorker.update_pointer_table` retry loop (index `i`):
3 attempts, the i-th `query_and_wait` succeeding iff `att i`; on success
the transaction is applied and the function returns; a failed attempt is
swallowed (logged, slept on) and retried; when all 3 attempts fail, the
loop falls through and the function returns `None` with the table
unchanged. -/
def update_pointer_table_go (att : Nat → Bool) (i : Nat) (rows : List PointerRow)
    (worker : String) (new_checkpoint : GoldskyCheckpoint) :
    Nat → List PointerRow
  | 0 => rows
  | remaining + 1 =>
    if att i then pointer_tx rows worker new_checkpoint
    else update_pointer_table_go att (i + 1) rows worker new_checkpoint remaining

/-- `DirectGoldskyWorker.update_pointer_table`: `for i in range(3)`. -/
def update_pointer_table (att : Nat → Bool) (rows : List PointerRow)
    (worker : String) (new_checkpoint : GoldskyCheckpoint) : List PointerRow :=
  update_pointer_table_go att 0 rows worker new_checkpoint 3

/-- The pointer-table effect of `blocking_update_pointer_table` (Parallel
Loader).  `workerTableExists` is the `not new` flag: when the long-lived
worker table exists the pointer update runs inside the DELETE-then-INSERT
transaction; when it does not (`new = True`), the pointer row is INSERTed
with no preceding DELETE.  The raw-table loads are warehouse I/O outside
the pointer state. -/
def blocking_update_pointer_table (rows : List PointerRow) (workerTableExists : Bool)
    (worker : String) (new_checkpoint : GoldskyCheckpoint) : List PointerRow :=
  if workerTableExists then pointer_tx rows worker new_checkpoint
  else rows ++ [mkPointerRow worker new_checkpoint]

/-! ### bq_retry and commit_pointer (Direct Loader) -/

/-- Outcome of one bulk-load attempt. -/
inductive LoadAttempt where
  | success
  | internalServerError
  | clientError
deriving DecidableEq, Repr

/-- `bq_retry` loop from index `i`: calls `f` up to `retries` times;
a success returns the result; a `ClientError` re-raises immediately;
an `InternalServerError` sleeps and retries.  When the loop exhausts all
attempts the function falls off the end and returns `None` — there is no
re-raise after exhaustion. -/
def bq_retry_go (f : Nat → LoadAttempt) (i : Nat) : Nat → Except String (Option Unit)
  | 0 => .ok none
  | remaining + 1 =>
    match f i with
    | .success => .ok (some ())
    | .clientError => .error "ClientError"
    | .internalServerError => bq_retry_go f (i + 1) remaining

/-- `bq_retry(context, f, retries)`: `for i in range(retries)`. -/
def bq_retry (f : Nat → LoadAttempt) (retries : Nat) : Except String (Option Unit) :=
  bq_retry_go f 0 retries

/-- `DirectGoldskyWorker.commit_pointer`: run the bulk-load through
`bq_retry` (5 attempts) and then update the pointer table — the source
calls `update_pointer_table` unconditionally after `bq_retry` returns,
whether or not the load ever succeeded.  The first component of the result
records whether the bulk-load succeeded (`bq_retry` returned the job
result rather than the fall-through `None`). -/
def commit_pointer (f : Nat → LoadAttempt) (att : Nat → Bool)
    (rows : List PointerRow) (worker : String) (checkpoint : GoldskyCheckpoint) :
    Except String (Bool × List PointerRow) :=
  match bq_retry f 5 with
  | .error e => .error e
  | .ok r => .ok (r.isSome, update_pointer_table att rows worker checkpoint)

/-- C1 (code bug): when every one of the 5 bulk-load attempts raises
`InternalServerError`, `bq_retry` exhausts its loop and silently returns
`None` instead of raising, and `commit_pointer` then advances the pointer
for a batch that was never loaded — the worker does not abort and the
pointer IS advanced. -/
theorem C1_retry_exhaustion_still_commits (rows : List PointerRow) (w : String)
    (c : GoldskyCheckpoint) :
    bq_retry (fun _ => .internalServerError) 5 = .ok none
    ∧ commit_pointer (fun _ => .internalServerError) (fun _ => true) rows w c
      = .ok (false, pointer_tx rows w c) := by
  constructor
  · rfl
  · rfl

theorem rowsFor_pointer_tx (rows : List PointerRow) (w : String) (c : GoldskyCheckpoint) :
    rowsFor (pointer_tx rows w c) w = [mkPointerRow w c] := by
  unfold rowsFor pointer_tx
  rw [List.filter_append]
  have h1 : (rows.filter (fun r => r.worker ≠ w)).filter (fun r => r.worker = w) = [] := by
    induction rows with
    | nil => rfl
    | cons r rs ih =>
      by_cases hr : r.worker = w
      · simp [List.filter, hr, ih]
      · simp [List.filter, hr, ih]
  rw [h1]
  simp [mkPointerRow]

theorem update_pointer_table_success (att : Nat → Bool) (rows : List PointerRow)
    (w : String) (c : GoldskyCheckpoint) (i : Nat) (hi : i < 3) (hatt : att i = true) :
    update_pointer_table att rows w c = pointer_tx rows w c := by
  unfold update_pointer_table
  by_cases h0 : att 0 = true
  · simp [update_pointer_table_go, h0]
  · by_cases h1 : att 1 = true
    · simp [update_pointer_table_go, h0, h1]
    · by_cases h2 : att 2 = true
      · simp [update_pointer_table_go, h0, h1, h2]
      · interval_cases i <;> simp_all

/-- C2 counterexample: in the Parallel Loader's new-table path, committing
checkpoint `("jobB",2,2)` for worker `"0"` while the table already holds a
row for `"0"` leaves TWO rows for that worker, not exactly one. -/
theorem C2_pointer_commit_counterexample :
    rowsFor (blocking_update_pointer_table [⟨"0", "jobA", 1, 1⟩] false "0" ⟨"jobB", 2, 2⟩) "0"
      = [⟨"0", "jobA", 1, 1⟩, ⟨"0", "jobB", 2, 2⟩]
    ∧ (rowsFor (blocking_update_pointer_table [⟨"0", "jobA", 1, 1⟩] false "0"
        ⟨"jobB", 2, 2⟩) "0").length ≠ 1 := by
  constructor
  · rfl
  · decide

/-- C2 (amended): the exactly-one-row invariant holds after the
DELETE-then-INSERT transaction (hence for the Direct Loader whenever one
of its up-to-3 transaction attempts succeeds — if all 3 fail the function
returns with the table unchanged) and for the Parallel Loader's
existing-table path; in the new-table path the row is INSERTed without a
preceding DELETE, so the invariant holds only when no row for the worker
existed before the commit. -/
theorem C2_pointer_commit_amended :
    (∀ (rows : List PointerRow) (w : String) (c : GoldskyCheckpoint),
        rowsFor (pointer_tx rows w c) w = [mkPointerRow w c])
    ∧ (∀ (att : Nat → Bool) (rows : List PointerRow) (w : String) (c : GoldskyCheckpoint)
        (i : Nat), i < 3 → att i = true →
        rowsFor (update_pointer_table att rows w c) w = [mkPointerRow w c])
    ∧ (∀ (rows : List PointerRow) (w : String) (c : GoldskyCheckpoint),
        blocking_update_pointer_table rows true w c = pointer_tx rows w c)
    ∧ (∀ (rows : List PointerRow) (w : String) (c : GoldskyCheckpoint),
        rowsFor rows w = [] →
        rowsFor (blocking_update_pointer_table rows false w c) w = [mkPointerRow w c]) := by
  refine ⟨rowsFor_pointer_tx, ?_, fun rows w c => rfl, ?_⟩
  · intro att rows w c i hi hatt
    rw [update_pointer_table_success att rows w c i hi hatt]
    exact rowsFor_pointer_tx rows w c
  · intro rows w c hempty
    unfold blocking_update_pointer_table
    simp only [if_neg (by simp : ¬ (false = true))]
    unfold rowsFor at hempty ⊢
    rw [List.filter_append, hempty]
    simp [mkPointerRow]

/-- Witness for the amended C2 at concrete tables. -/
theorem C2_pointer_commit_amended_witness :
    rowsFor (update_pointer_table (fun _ => true) [⟨"1", "j", 0, 0⟩] "0" ⟨"jobB", 2, 2⟩) "0"
      = [mkPointerRow "0" ⟨"jobB", 2, 2⟩]
    ∧ rowsFor (blocking_update_pointer_table [⟨"1", "j", 0, 0⟩] false "0" ⟨"jobB", 2, 2⟩) "0"
      = [mkPointerRow "0" ⟨"jobB", 2, 2⟩] :=
  ⟨C2_pointer_commit_amended.2.1 (fun _ => true) [⟨"1", "j", 0, 0⟩] "0" ⟨"jobB", 2, 2⟩ 0
      (by decide) rfl,
    C2_pointer_commit_amended.2.2.2 [⟨"1", "j", 0, 0⟩] "0" ⟨"jobB", 2, 2⟩ (by decide)⟩

/-! ### Pointer table naming (backfill isolation) -/

/-- `GoldskyAsset.pointer_table_name`: the source computes an
underscore-prefixed local `pointer_table_suffix` but then interpolates the
ORIGINAL `self.pointer_table_suffix` attribute into the f-string, so the
computed separator is dropped (the local is dead). -/
def pointer_table_name (destination_table_name pointer_table_suffix : String) : String :=
  let _fixed_suffix :=
    if pointer_table_suffix ≠ "" && !(pointer_table_suffix.startsWith "_")
    then "_" ++ pointer_table_suffix else pointer_table_suffix
  destination_table_name ++ "_pointer_state" ++ pointer_table_suffix

/-- C3 (code bug): for backfill label `"q1"` the pointer table is named
`dest_pointer_stateq1`, not `dest_pointer_state_q1` as specified — the
underscore separator computed into the local variable is never used.  The
backfill table name still differs from the primary `dest_pointer_state`,
so the primary pointer remains untouched. -/
theorem C3_backfill_pointer_table_name :
    pointer_table_name "dest" "q1" = "dest_pointer_stateq1"
    ∧ pointer_table_name "dest" "q1" ≠ "dest_pointer_state_q1"
    ∧ pointer_table_name "dest" "" = "dest_pointer_state"
    ∧ pointer_table_name "dest" "q1" ≠ pointer_table_name "dest" "" :=
  ⟨rfl, by decide, rfl, by decide⟩

/-! ### Parquet-to-BigQuery schema mapping -/

/-- The polars data types relevant to `PARQUET_TO_BQ_FIELD_TYPES`.  The
documented keys of the mapping are the first ten constructors; `time` and
`binary` stand for polars types absent from the mapping (e.g.
`polars.Time`, `polars.Binary`), whose lookup raises `KeyError`. -/
inductive PolarsType where
  | boolean
  | int64
  | int32
  | date
  | string
  | decimal (precision : Nat) (scale : Nat)
  | datetime
  | float64
  | float32
  | listOf (inner : PolarsType)
  | time
  | binary
deriving DecidableEq, Repr

/-- `google.cloud.bigquery.schema.SchemaField` (the fields the source
uses): positional `name`, `field_type`, and keyword `mode` (default
`NULLABLE`), `precision`, `scale`. -/
structure SchemaField where
  name : String
  field_type : String
  mode : String := "NULLABLE"
  precision : Option Nat := none
  scale : Option Nat := none
deriving DecidableEq, Repr

/-- `decimal_convert`: `NUMERIC` exactly when `precision == 100 and
scale == 0`, else `DECIMAL(precision, scale)`. -/
def decimal_convert (name : String) (precision scale : Nat) : SchemaField :=
  if precision = 100 && scale = 0 then ⟨name, "NUMERIC", "NULLABLE", none, none⟩
  else ⟨name, "DECIMAL", "NULLABLE", some precision, some scale⟩

/-- `PARQUET_TO_BQ_FIELD_TYPES[type(field)](name, field)`: `none` models
the `KeyError` on a type absent from the dict.  `list_type_convert` looks
up the inner type for the key `"_inner"` and copies only its `field_type`
with mode `REPEATED`. -/
def parquetToBqField : String → PolarsType → Option SchemaField
  | name, .boolean => some ⟨name, "BOOLEAN", "NULLABLE", none, none⟩
  | name, .int64 => some ⟨name, "INT64", "NULLABLE", none, none⟩
  | name, .int32 => some ⟨name, "INT64", "NULLABLE", none, none⟩
  | name, .date => some ⟨name, "DATE", "NULLABLE", none, none⟩
  | name, .string => some ⟨name, "STRING", "NULLABLE", none, none⟩
  | name, .decimal p s => some (decimal_convert name p s)
  | name, .datetime => some ⟨name, "TIMESTAMP", "NULLABLE", none, none⟩
  | name, .float64 => some ⟨name, "FLOAT64", "NULLABLE", none, none⟩
  | name, .float32 => some ⟨name, "FLOAT64", "NULLABLE", none, none⟩
  | name, .listOf inner =>
    (parquetToBqField "_inner" inner).map
      (fun it => ⟨name, it.field_type, "REPEATED", none, none⟩)
  | _, .time => none
  | _, .binary => none

/-- The documented Parquet types of the spec's mapping table. -/
def documentedType : PolarsType → Bool
  | .boolean | .int64 | .int32 | .date | .string | .datetime | .float64 | .float32 => true
  | .decimal _ _ => true
  | .listOf inner => documentedType inner
  | .time => false
  | .binary => false

/-- The `overrides_lookup` dict built by inserting each override keyed by
name: a later override with the same name wins. -/
def overridesLookup (ovs : List SchemaField) (n : String) : Option SchemaField :=
  (ovs.filter (fun o => o.name = n)).getLast?

/-- `GoldskyAsset.load_schema` applied to the parquet schema read from the
sampled blob: for each field in order, an override by name is taken
intact; otherwise the type is converted, and a type missing from
`PARQUET_TO_BQ_FIELD_TYPES` raises `KeyError` (fatal). -/
def load_schema : List (String × PolarsType) → List SchemaField →
    Except String (List SchemaField)
  | [], _ => .ok []
  | (fname, ftype) :: rest, ovs =>
    match overridesLookup ovs fname with
    | some ov =>
      match load_schema rest ovs with
      | .error e => .error e
      | .ok t => .ok (ov :: t)
    | none =>
      match parquetToBqField fname ftype with
      | some sf =>
        match load_schema rest ovs with
        | .error e => .error e
        | .ok t => .ok (sf :: t)
      | none => .error ("KeyError: " ++ fname)

theorem parquetToBqField_isSome {t : PolarsType} (h : documentedType t = true) :
    ∀ n, (parquetToBqField n t).isSome = true := by
  induction t with
  | boolean => intro n; rfl
  | int64 => intro n; rfl
  | int32 => intro n; rfl
  | date => intro n; rfl
  | string => intro n; rfl
  | decimal p s => intro n; rfl
  | datetime => intro n; rfl
  | float64 => intro n; rfl
  | float32 => intro n; rfl
  | listOf inner ih =>
    intro n
    have hinner : documentedType inner = true := h
    have hs := ih hinner "_inner"
    cases hp : parquetToBqField "_inner" inner with
    | none => rw [hp] at hs; exact absurd hs (by simp)
    | some v => simp [parquetToBqField, hp]
  | time => exact absurd h (by simp [documentedType])
  | binary => exact absurd h (by simp [documentedType])

theorem parquetToBqField_eq_none {t : PolarsType} (h : documentedType t = false) :
    ∀ n, parquetToBqField n t = none := by
  induction t with
  | boolean => exact absurd h (by simp [documentedType])
  | int64 => exact absurd h (by simp [documentedType])
  | int32 => exact absurd h (by simp [documentedType])
  | date => exact absurd h (by simp [documentedType])
  | string => exact absurd h (by simp [documentedType])
  | decimal p s => exact absurd h (by simp [documentedType])
  | datetime => exact absurd h (by simp [documentedType])
  | float64 => exact absurd h (by simp [documentedType])
  | float32 => exact absurd h (by simp [documentedType])
  | listOf inner ih =>
    intro n
    have hinner : documentedType inner = false := h
    simp only [parquetToBqField, ih hinner "_inner", Option.map_none']
  | time => intro n; rfl
  | binary => intro n; rfl

theorem load_schema_override : ∀ (schema : List (String × PolarsType))
    (ovs out : List SchemaField), load_schema schema ovs = .ok out →
    ∀ (i : Nat) (fname : String) (ftype : PolarsType),
      schema.get? i = some (fname, ftype) →
    ∀ ov, overridesLookup ovs fname = some ov → out.get? i = some ov := by
  intro schema
  induction schema with
  | nil =>
    intro ovs out h i fname ftype hg
    simp at hg
  | cons ft rest ih =>
    intro ovs out h i fname ftype hg ov hov
    rcases ft with ⟨gname, gtype⟩
    unfold load_schema at h
    cases i with
    | zero =>
      simp only [List.get?] at hg
      cases hg
      rw [hov] at h
      cases hrest : load_schema rest ovs with
      | error e => rw [hrest] at h; exact absurd h (by simp)
      | ok t =>
        rw [hrest] at h
        cases h
        rfl
    | succ j =>
      simp only [List.get?] at hg ⊢
      cases hov2 : overridesLookup ovs gname with
      | some ov2 =>
        rw [hov2] at h
        cases hrest : load_schema rest ovs with
        | error e => rw [hrest] at h; exact absurd h (by simp)
        | ok t =>
          rw [hrest] at h
          cases h
          exact ih ovs t hrest j fname ftype hg ov hov
      | none =>
        rw [hov2] at h
        cases hconv : parquetToBqField gname gtype with
        | some sf =>
          rw [hconv] at h
          cases hrest : load_schema rest ovs with
          | error e => rw [hrest] at h; exact absurd h (by simp)
          | ok t =>
            rw [hrest] at h
            cases h
            exact ih ovs t hrest j fname ftype hg ov hov
        | none =>
          rw [hconv] at h
          exact absurd h (by simp)

theorem load_schema_unknown_fatal : ∀ (schema : List (String × PolarsType))
    (ovs : List SchemaField),
    (∃ ft ∈ schema, documentedType ft.2 = false ∧ overridesLookup ovs ft.1 = none) →
    ∃ e, load_schema schema ovs = .error e := by
  intro schema
  induction schema with
  | nil =>
    intro ovs h
    obtain ⟨ft, hmem, _⟩ := h
    exact absurd hmem (List.not_mem_nil ft)
  | cons g rest ih =>
    intro ovs h
    rcases g with ⟨gname, gtype⟩
    obtain ⟨ft, hmem, hdoc, hov⟩ := h
    unfold load_schema
    rcases List.mem_cons.mp hmem with heq | hmem2
    · subst heq
      rw [hov, parquetToBqField_eq_none hdoc]
      exact ⟨_, rfl⟩
    · cases hov2 : overridesLookup ovs gname with
      | some ov2 =>
        obtain ⟨e, he⟩ := ih ovs ⟨ft, hmem2, hdoc, hov⟩
        rw [he]
        exact ⟨e, rfl⟩
      | none =>
        cases hconv : parquetToBqField gname gtype with
        | some sf =>
          obtain ⟨e, he⟩ := ih ovs ⟨ft, hmem2, hdoc, hov⟩
          rw [he]
          exact ⟨e, rfl⟩
        | none => exact ⟨_, rfl⟩

/-- C7: the schema mapping is total over the documented Parquet types; a
`Decimal(p, s)` maps to `NUMERIC` exactly when `p = 100 ∧ s = 0` and to
`DECIMAL(p, s)` otherwise; an override replaces the inferred field intact
at the field's position; and a Parquet type outside the documented set
(not overridden by name) makes `load_schema` fail. -/
theorem C7_schema_mapping :
    (∀ (n : String) (t : PolarsType), documentedType t = true →
        (parquetToBqField n t).isSome = true)
    ∧ (∀ (n : String) (p s : Nat),
        (p = 100 ∧ s = 0 → parquetToBqField n (.decimal p s)
            = some ⟨n, "NUMERIC", "NULLABLE", none, none⟩)
        ∧ (¬(p = 100 ∧ s = 0) → parquetToBqField n (.decimal p s)
            = some ⟨n, "DECIMAL", "NULLABLE", some p, some s⟩))
    ∧ (∀ (schema : List (String × PolarsType)) (ovs out : List SchemaField),
        load_schema schema ovs = .ok out →
        ∀ (i : Nat) (fname : String) (ftype : PolarsType),
          schema.get? i = some (fname, ftype) →
        ∀ ov, overridesLookup ovs fname = some ov → out.get? i = some ov)
    ∧ (∀ (schema : List (String × PolarsType)) (ovs : List SchemaField),
        (∃ ft ∈ schema, documentedType ft.2 = false ∧ overridesLookup ovs ft.1 = none) →
        ∃ e, load_schema schema ovs = .error e) := by
  refine ⟨fun n t h => parquetToBqField_isSome h n, ?_, load_schema_override,
    load_schema_unknown_fatal⟩
  intro n p s
  constructor
  · rintro ⟨rfl, rfl⟩
    rfl
  · intro hne
    simp only [parquetToBqField, decimal_convert]
    rw [if_neg]
    simp only [Bool.and_eq_true, decide_eq_true_eq, not_and]
    intro hp hs
    exact hne ⟨hp, hs⟩

/-- Witness for C7: an override named `amount` replaces the inferred
`DECIMAL(38, 9)` field; `Decimal(100, 0)` maps to `NUMERIC`; an unmapped
type fails. -/
theorem C7_schema_mapping_witness :
    (parquetToBqField "flag" .boolean).isSome = true
    ∧ parquetToBqField "m" (.decimal 100 0) = some ⟨"m", "NUMERIC", "NULLABLE", none, none⟩
    ∧ parquetToBqField "m" (.decimal 38 9) = some ⟨"m", "DECIMAL", "NULLABLE", some 38, some 9⟩
    ∧ (load_schema [("amount", .decimal 38 9)] [⟨"amount", "NUMERIC", "NULLABLE", none, none⟩]
        = .ok [⟨"amount", "NUMERIC", "NULLABLE", none, none⟩] →
      [("amount", PolarsType.decimal 38 9)].get? 0 = some ("amount", .decimal 38 9) →
      ([⟨"amount", "NUMERIC", "NULLABLE", none, none⟩] : List SchemaField).get? 0
        = some ⟨"amount", "NUMERIC", "NULLABLE", none, none⟩)
    ∧ ∃ e, load_schema [("t", .time)] [] = .error e :=
  ⟨C7_schema_mapping.1 "flag" .boolean rfl,
    (C7_schema_mapping.2.1 "m" 100 0).1 ⟨rfl, rfl⟩,
    (C7_schema_mapping.2.1 "m" 38 9).2 (by decide),
    fun h1 h2 => C7_schema_mapping.2.2.1 [("amount", .decimal 38 9)]
      [⟨"amount", "NUMERIC", "NULLABLE", none, none⟩]
      [⟨"amount", "NUMERIC", "NULLABLE", none, none⟩] h1 0 "amount" (.decimal 38 9) h2
      ⟨"amount", "NUMERIC", "NULLABLE", none, none⟩ rfl,
    C7_schema_mapping.2.2.2 [("t", .time)] []
      ⟨("t", .time), by simp, rfl, rfl⟩⟩

/-! ### DISCOVER: blob listing and queue loading -/

/-- `GoldskyAsset._uncached_blobs_loader`: list the bucket under the source
prefix and keep the matches of `goldsky_re`; non-matching names are
silently skipped. -/
def uncached_blobs_loader (pfx : String) (names : List String) : List Parsed :=
  names.filterMap (goldskyMatch pfx)

/-- The checkpoint `load_queues` builds from a match:
`GoldskyCheckpoint(job_id, int(timestamp), int(checkpoint))`. -/
def matchCheckpoint (m : Parsed) : GoldskyCheckpoint :=
  ⟨m.job_id, (strToNat m.timestamp : Int), (strToNat m.checkpoint : Int)⟩

/-- Worker-status dict lookup. -/
def lookupStatus : List (String × GoldskyCheckpoint) → String → Option GoldskyCheckpoint
  | [], _ => none
  | (k, v) :: rest, w => if k = w then some v else lookupStatus rest w

/-- The loop state of `GoldskyAsset.load_queues`: the queues plus the
running `latest_timestamp`. -/
structure LQState where
  queues : GoldskyQueues
  latest_timestamp : Int
deriving Repr

/-- The `continue` guard of the checkpoint-range filter:
`if checkpoint_range: if not checkpoint_range.in_range(checkpoint)`. -/
def rangeSkip (checkpoint_range : Option GoldskyCheckpointRange) (m : Parsed) : Bool :=
  match checkpoint_range with
  | none => false
  | some r => !(r.in_range (matchCheckpoint m))

/-- The `continue` guard of the worker-status filter: `if worker_status:`
(an empty dict is falsy, skipping the check entirely) and then
`if worker_checkpoint >= checkpoint`. -/
def statusSkip (worker_status : List (String × GoldskyCheckpoint)) (m : Parsed) : Bool :=
  match worker_status with
  | [] => false
  | _ :: _ =>
    cpGe ((lookupStatus worker_status m.worker).getD ⟨"", 0, 0⟩) (matchCheckpoint m)

/-- One iteration of the `for match in blobs_to_process` loop of
`GoldskyAsset.load_queues` (log calls omitted): update `latest_timestamp`,
skip when a checkpoint range is given and the checkpoint is out of range,
skip when the worker-status dict is non-empty (Python truthiness) and the
stored checkpoint (defaulting to `GoldskyCheckpoint("", 0, 0)`) is `>=`
the item's checkpoint, else enqueue `(checkpoint, match.group(0), match)`
onto the worker's queue. -/
def processMatch (pfx : String) (worker_status : List (String × GoldskyCheckpoint))
    (checkpoint_range : Option GoldskyCheckpointRange) (st : LQState) (m : Parsed) :
    Except String LQState :=
  let timestamp : Int := (strToNat m.timestamp : Int)
  let latest2 : Int :=
    if timestamp > st.latest_timestamp then timestamp else st.latest_timestamp
  if rangeSkip checkpoint_range m then .ok ⟨st.queues, latest2⟩
  else if statusSkip worker_status m then .ok ⟨st.queues, latest2⟩
  else
    match st.queues.enqueue m.worker (some ⟨matchCheckpoint m, m.group0 pfx, m⟩) with
    | .error e => .error e
    | .ok qs2 => .ok ⟨qs2, latest2⟩

/-- `if not max_objects_to_load`: an explicit `max_objects_to_load = 0`
is falsy in Python, so the config value replaces it. -/
def effectiveMaxObjects (max_objects_to_load : Option Nat) (config_max : Nat) : Nat :=
  match max_objects_to_load with
  | none => config_max
  | some v => if v = 0 then config_max else v

/-- `GoldskyAsset.load_queues` (logging omitted).  `worker_status`
defaults to `None`; inside the loop `if worker_status:` treats `None` and
an empty dict alike (both falsy), hence the `getD []`.  After the loop the
source unconditionally runs `keys = list(worker_status.keys())`
(assets.py:1117), which raises `AttributeError` when `worker_status` is
`None`; with an actual dict that post-loop block can only log (the key it
reads back is taken from the dict itself). -/
def load_queues (pfx : String) (names : List String)
    (worker_status : Option (List (String × GoldskyCheckpoint)))
    (checkpoint_range : Option GoldskyCheckpointRange)
    (max_objects_to_load : Option Nat) (config_max_objects_to_load : Nat) :
    Except String GoldskyQueues :=
  match (uncached_blobs_loader pfx names).foldlM
      (processMatch pfx (worker_status.getD []) checkpoint_range)
      ⟨⟨[], effectiveMaxObjects max_objects_to_load config_max_objects_to_load⟩, 0⟩ with
  | .error e => .error e
  | .ok st =>
    match worker_status with
    | none => .error "AttributeError: NoneType object has no attribute keys"
    | some _ => .ok st.queues

/-- The heap contents of one worker's queue in a queue set. -/
def itemsOf (qs : GoldskyQueues) (worker : String) : List HElem :=
  match lookupQueue qs.queues worker with
  | some q => q.queue
  | none => []

/-- Every queue in the set holds only real items. -/
def QueuesAllSome (qs : GoldskyQueues) : Prop :=
  ∀ p ∈ qs.queues, AllSome (p.2).queue

theorem lookupQueue_setQueue_self (l : List (String × GoldskyQueue)) (w : String)
    (q : GoldskyQueue) : lookupQueue (setQueue l w q) w = some q := by
  induction l with
  | nil => simp [setQueue, lookupQueue]
  | cons p rest ih =>
    rcases p with ⟨k, v⟩
    by_cases hk : k = w
    · simp [setQueue, lookupQueue, hk]
    · simp [setQueue, lookupQueue, hk, ih]

theorem lookupQueue_setQueue_other (l : List (String × GoldskyQueue)) (w w2 : String)
    (q : GoldskyQueue) (h : w2 ≠ w) :
    lookupQueue (setQueue l w q) w2 = lookupQueue l w2 := by
  induction l with
  | nil =>
    simp only [setQueue, lookupQueue]
    rw [if_neg (fun hc => h hc.symm)]
  | cons p rest ih =>
    rcases p with ⟨k, v⟩
    by_cases hk : k = w
    · subst hk
      simp only [setQueue, if_pos rfl, lookupQueue]
      by_cases hk2 : k = w2
      · exact absurd hk2.symm h
      · rw [if_neg hk2, if_neg hk2]
    · simp only [setQueue, if_neg hk, lookupQueue]
      by_cases hk2 : k = w2
      · rw [if_pos hk2, if_pos hk2]
      · rw [if_neg hk2, if_neg hk2, ih]

theorem mem_setQueue {l : List (String × GoldskyQueue)} {w : String} {q : GoldskyQueue}
    {p : String × GoldskyQueue} (h : p ∈ setQueue l w q) : p = (w, q) ∨ p ∈ l := by
  induction l with
  | nil =>
    simp [setQueue] at h
    exact Or.inl h
  | cons hd rest ih =>
    rcases hd with ⟨k, v⟩
    by_cases hk : k = w
    · subst hk
      simp only [setQueue, if_pos rfl] at h
      rcases List.mem_cons.mp h with heq | hmem
      · exact Or.inl heq
      · exact Or.inr (List.mem_cons_of_mem _ hmem)
    · simp only [setQueue, if_neg hk] at h
      rcases List.mem_cons.mp h with heq | hmem
      · exact Or.inr (heq ▸ List.mem_cons_self _ _)
      · rcases ih hmem with h2 | h2
        · exact Or.inl h2
        · exact Or.inr (List.mem_cons_of_mem _ h2)

theorem lookupQueue_mem {l : List (String × GoldskyQueue)} {w : String}
    {q : GoldskyQueue} (h : lookupQueue l w = some q) : (w, q) ∈ l := by
  induction l with
  | nil => simp [lookupQueue] at h
  | cons p rest ih =>
    rcases p with ⟨k, v⟩
    by_cases hk : k = w
    · subst hk
      simp [lookupQueue] at h
      subst h
      exact List.mem_cons_self _ _
    · simp only [lookupQueue, if_neg hk] at h
      exact List.mem_cons_of_mem _ (ih h)

/-- Queue-set-level enqueue of a real item: succeeds, the worker's heap
gains the item (as a multiset), the other workers' heaps are untouched,
and all heaps stay all-real. -/
theorem queues_enqueue_spec (qs : GoldskyQueues) (w : String) (i : GoldskyQueueItem)
    (h : QueuesAllSome qs) :
    ∃ qs2, qs.enqueue w (some i) = .ok qs2 ∧ QueuesAllSome qs2
      ∧ (itemsOf qs2 w).Perm (some i :: itemsOf qs w)
      ∧ ∀ w2, w2 ≠ w → itemsOf qs2 w2 = itemsOf qs w2 := by
  have hq0 : AllSome ((lookupQueue qs.queues w).getD ⟨[], 0, qs.maxSize⟩).queue := by
    cases hl : lookupQueue qs.queues w with
    | none => intro x hx; simp at hx
    | some q => exact h (w, q) (lookupQueue_mem hl)
  have hitems : ((lookupQueue qs.queues w).getD ⟨[], 0, qs.maxSize⟩).queue = itemsOf qs w := by
    unfold itemsOf
    cases hl : lookupQueue qs.queues w with
    | none => rfl
    | some q => rfl
  obtain ⟨q2, henq, _, _, _, hAll, hperm, _⟩ :=
    enqueue_some_spec (q := (lookupQueue qs.queues w).getD ⟨[], 0, qs.maxSize⟩) i hq0
  refine ⟨⟨setQueue qs.queues w q2, qs.maxSize⟩, ?_, ?_, ?_, ?_⟩
  · unfold GoldskyQueues.enqueue
    rw [henq]
  · intro p hp
    rcases mem_setQueue hp with heq | hmem
    · subst heq
      exact hAll
    · exact h p hmem
  · show (itemsOf ⟨setQueue qs.queues w q2, qs.maxSize⟩ w).Perm (some i :: itemsOf qs w)
    unfold itemsOf
    rw [lookupQueue_setQueue_self]
    rw [hitems] at hperm
    exact hperm
  · intro w2 hw2
    unfold itemsOf
    rw [lookupQueue_setQueue_other qs.queues w w2 q2 hw2]

/-- The `latest_timestamp` update of one `load_queues` loop step. -/
def latestAfter (st : LQState) (m : Parsed) : Int :=
  if (strToNat m.timestamp : Int) > st.latest_timestamp then (strToNat m.timestamp : Int)
  else st.latest_timestamp

theorem strLt_empty_left {s : String} (h : s ≠ "") : strLt "" s = true := by
  show clLt [] s.data = true
  cases hd : s.data with
  | nil => exact absurd (String.ext (by rw [hd])) h
  | cons c cs => rfl

/-- The default status checkpoint `GoldskyCheckpoint("", 0, 0)` is strictly
below any checkpoint with a non-negative timestamp and non-empty job id —
in particular below every checkpoint parsed from a matching blob name. -/
theorem cpLt_default_lt {c : GoldskyCheckpoint} (hts : 0 ≤ c.timestamp)
    (hjob : c.job_id ≠ "") : cpLt ⟨"", 0, 0⟩ c = true := by
  rcases c with ⟨j, ts, wc⟩
  simp only at hts hjob
  unfold cpLt
  simp only
  by_cases ht : (0 : Int) < ts
  · rw [if_pos ht]
  · have ht0 : ts = 0 := by omega
    rw [if_neg ht, if_neg (by simp [ht0]), if_pos (strLt_empty_left hjob)]

theorem processMatch_skip_range (pfx : String)
    (ws : List (String × GoldskyCheckpoint)) (rng : Option GoldskyCheckpointRange)
    (st : LQState) (m : Parsed) (h : rangeSkip rng m = true) :
    processMatch pfx ws rng st m = .ok ⟨st.queues, latestAfter st m⟩ := by
  simp only [processMatch]
  rw [if_pos h]
  rfl

theorem processMatch_skip_status (pfx : String)
    (ws : List (String × GoldskyCheckpoint)) (rng : Option GoldskyCheckpointRange)
    (st : LQState) (m : Parsed)
    (h1 : rangeSkip rng m = false) (h2 : statusSkip ws m = true) :
    processMatch pfx ws rng st m = .ok ⟨st.queues, latestAfter st m⟩ := by
  simp only [processMatch]
  rw [if_neg (by simp [h1]), if_pos h2]
  rfl

theorem processMatch_enqueues (pfx : String)
    (ws : List (String × GoldskyCheckpoint)) (rng : Option GoldskyCheckpointRange)
    (st : LQState) (m : Parsed)
    (h1 : rangeSkip rng m = false) (h2 : statusSkip ws m = false)
    (hall : QueuesAllSome st.queues) :
    ∃ qs2, processMatch pfx ws rng st m = .ok ⟨qs2, latestAfter st m⟩
      ∧ QueuesAllSome qs2
      ∧ (itemsOf qs2 m.worker).Perm
          (some ⟨matchCheckpoint m, m.group0 pfx, m⟩ :: itemsOf st.queues m.worker)
      ∧ ∀ w2, w2 ≠ m.worker → itemsOf qs2 w2 = itemsOf st.queues w2 := by
  obtain ⟨qs2, he, hq2all, hperm, hother⟩ :=
    queues_enqueue_spec st.queues m.worker ⟨matchCheckpoint m, m.group0 pfx, m⟩ hall
  refine ⟨qs2, ?_, hq2all, hperm, hother⟩
  simp only [processMatch]
  rw [if_neg (by simp [h1]), if_neg (by simp [h2]), he]
  rfl

/-- The claim's enqueue condition during DISCOVER: the checkpoint is in
range (when a range is given) and strictly greater than the worker's
stored pointer checkpoint (an absent row defaults to
`GoldskyCheckpoint("", 0, 0)`). -/
def EnqueueCond (worker_status : List (String × GoldskyCheckpoint))
    (rng : Option GoldskyCheckpointRange) (m : Parsed) : Prop :=
  (match rng with
    | none => true
    | some r => r.in_range (matchCheckpoint m)) = true
  ∧ cpLt ((lookupStatus worker_status m.worker).getD ⟨"", 0, 0⟩) (matchCheckpoint m) = true

/-- C4: during DISCOVER, a blob name that does not match `goldsky_re` is
silently dropped by the blobs loader, and a matched item is enqueued onto
its worker's queue if and only if (when a checkpoint range is given) its
checkpoint is in range AND the checkpoint is strictly greater than the
worker's stored pointer checkpoint; otherwise the queues are unchanged. -/
theorem C4_discover_enqueue_iff :
    (∀ (pfx name : String) (names : List String), goldskyMatch pfx name = none →
        uncached_blobs_loader pfx (name :: names) = uncached_blobs_loader pfx names)
    ∧ (∀ (pfx name : String) (worker_status : List (String × GoldskyCheckpoint))
        (rng : Option GoldskyCheckpointRange) (st : LQState) (m : Parsed),
        goldskyMatch pfx name = some m → QueuesAllSome st.queues →
        ∃ st2, processMatch pfx worker_status rng st m = .ok st2
          ∧ (EnqueueCond worker_status rng m →
              (itemsOf st2.queues m.worker).Perm
                (some ⟨matchCheckpoint m, m.group0 pfx, m⟩ :: itemsOf st.queues m.worker)
              ∧ ∀ w2, w2 ≠ m.worker → itemsOf st2.queues w2 = itemsOf st.queues w2)
          ∧ (¬ EnqueueCond worker_status rng m → st2.queues = st.queues)) := by
  constructor
  · intro pfx name names h
    simp [uncached_blobs_loader, h]
  · intro pfx name ws rng st m hmatch hall
    have hjob := goldskyMatch_job_id_ne_empty hmatch
    cases hr : rangeSkip rng m with
    | true =>
      refine ⟨⟨st.queues, latestAfter st m⟩,
        processMatch_skip_range pfx ws rng st m hr, ?_, fun _ => rfl⟩
      intro hcond
      exfalso
      cases hrng : rng with
      | none => rw [hrng] at hr; exact absurd hr (by simp [rangeSkip])
      | some r =>
        rw [hrng] at hr
        have hrr : r.in_range (matchCheckpoint m) = false := by
          have : (!(r.in_range (matchCheckpoint m))) = true := hr
          simpa using this
        have h1 := hcond.1
        simp only [hrng] at h1
        rw [hrr] at h1
        exact absurd h1 (by simp)
    | false =>
      cases hsk : statusSkip ws m with
      | true =>
        refine ⟨⟨st.queues, latestAfter st m⟩,
          processMatch_skip_status pfx ws rng st m hr hsk, ?_, fun _ => rfl⟩
        intro hcond
        exfalso
        cases hws : ws with
        | nil => rw [hws] at hsk; exact absurd hsk (by simp [statusSkip])
        | cons p rest =>
          have h2 := hcond.2
          rw [hws] at h2 hsk
          have hge := (not_cpGe_iff_cpLt _ _).mpr h2
          have hsk2 : cpGe ((lookupStatus (p :: rest) m.worker).getD ⟨"", 0, 0⟩)
              (matchCheckpoint m) = true := hsk
          rw [hge] at hsk2
          exact absurd hsk2 (by simp)
      | false =>
        obtain ⟨qs2, heq, _, hperm, hother⟩ :=
          processMatch_enqueues pfx ws rng st m hr hsk hall
        refine ⟨⟨qs2, latestAfter st m⟩, heq, fun _ => ⟨hperm, hother⟩, ?_⟩
        intro hncond
        exfalso
        apply hncond
        constructor
        · cases hrng : rng with
          | none => rfl
          | some r =>
            rw [hrng] at hr
            cases hb : r.in_range (matchCheckpoint m) with
            | true => exact hb
            | false =>
              have : rangeSkip (some r) m = true := by
                simp [rangeSkip, hb]
              rw [this] at hr
              exact absurd hr (by simp)
        · cases hws : ws with
          | nil =>
            show cpLt ⟨"", 0, 0⟩ (matchCheckpoint m) = true
            exact cpLt_default_lt (Int.natCast_nonneg _) hjob
          | cons p rest =>
            rw [hws] at hsk
            have hsk2 : cpGe ((lookupStatus (p :: rest) m.worker).getD ⟨"", 0, 0⟩)
                (matchCheckpoint m) = false := hsk
            exact (not_cpGe_iff_cpLt _ _).mp hsk2

/-- Witness for C4: a junk name is skipped; a matching name for worker 0
with no pointer rows and no range is enqueued. -/
theorem C4_discover_enqueue_iff_witness :
    uncached_blobs_loader "d/s" ["junk"] = uncached_blobs_loader "d/s" []
    ∧ ∃ st2, processMatch "d/s" [] none ⟨⟨[], 10⟩, 0⟩
          ⟨"1", "aaaaaaaa-aaaa-aaaa-aaaa-aaaaaaaaaaaa", "0", "7", '.'⟩ = .ok st2
        ∧ (EnqueueCond [] none ⟨"1", "aaaaaaaa-aaaa-aaaa-aaaa-aaaaaaaaaaaa", "0", "7", '.'⟩ →
            (itemsOf st2.queues "0").Perm
              (some ⟨matchCheckpoint ⟨"1", "aaaaaaaa-aaaa-aaaa-aaaa-aaaaaaaaaaaa", "0", "7", '.'⟩,
                  Parsed.group0 "d/s" ⟨"1", "aaaaaaaa-aaaa-aaaa-aaaa-aaaaaaaaaaaa", "0", "7", '.'⟩,
                  ⟨"1", "aaaaaaaa-aaaa-aaaa-aaaa-aaaaaaaaaaaa", "0", "7", '.'⟩⟩
                :: itemsOf (⟨⟨[], 10⟩, 0⟩ : LQState).queues "0")
            ∧ ∀ w2, w2 ≠ "0" →
                itemsOf st2.queues w2 = itemsOf (⟨⟨[], 10⟩, 0⟩ : LQState).queues w2)
        ∧ (¬ EnqueueCond [] none ⟨"1", "aaaaaaaa-aaaa-aaaa-aaaa-aaaaaaaaaaaa", "0", "7", '.'⟩ →
            st2.queues = (⟨⟨[], 10⟩, 0⟩ : LQState).queues) :=
  ⟨C4_discover_enqueue_iff.1 "d/s" "junk" [] rfl,
    C4_discover_enqueue_iff.2 "d/s" "d/s/1-aaaaaaaa-aaaa-aaaa-aaaa-aaaaaaaaaaaa-0-7.parquet"
      [] none ⟨⟨[], 10⟩, 0⟩ ⟨"1", "aaaaaaaa-aaaa-aaaa-aaaa-aaaaaaaaaaaa", "0", "7", '.'⟩
      rfl (fun p hp => absurd hp (List.not_mem_nil p))⟩

/-! ### Direct worker bulk-load loop -/

theorem dequeue_measure (q : GoldskyQueue) :
    (q.dequeue).2.queue.length + (if (q.dequeue).1.isSome then 1 else 0)
      < q.queue.length + 1 := by
  unfold GoldskyQueue.dequeue
  by_cases hc : (q.dequeues : Int) > (q.maxSize : Int) - 1
  · rw [if_pos hc]; simp
  · rw [if_neg hc]
    cases hq : q.queue with
    | nil => simp [hq]
    | cons x xs => cases x <;> (simp [hq]; try omega)

/-- The `while item is not None` loop of
`DirectGoldskyWorker.run_load_bigquery_load`: accumulate source URIs into
`to_load`, call `commit_pointer` whenever `len(to_load) >= pointer_size`
(each commit recorded as `(files, checkpoint)`), and flush any trailing
batch at the latest checkpoint when the queue is exhausted. -/
def runLoadLoop (bucket : String) (pointer_size : Nat) :
    GoldskyQueue → Option GoldskyQueueItem → List String → GoldskyCheckpoint →
    List (List String × GoldskyCheckpoint) → List (List String × GoldskyCheckpoint)
  | _, none, toLoad, latest, acc =>
    if toLoad.length > 0 then acc ++ [(toLoad, latest)] else acc
  | q, some it, toLoad, _, acc =>
    let source := "gs://" ++ bucket ++ "/" ++ it.blob_name
    let toLoad2 := toLoad ++ [source]
    if toLoad2.length ≥ pointer_size then
      runLoadLoop bucket pointer_size (q.dequeue).2 (q.dequeue).1 []
        it.checkpoint (acc ++ [(toLoad2, it.checkpoint)])
    else
      runLoadLoop bucket pointer_size (q.dequeue).2 (q.dequeue).1 toLoad2
        it.checkpoint acc
termination_by q item => q.queue.length + (if item.isSome then 1 else 0)
decreasing_by
  · have := dequeue_measure q
    simp only [Option.isSome_some, if_pos] at *
    omega
  · have := dequeue_measure q
    simp only [Option.isSome_some, if_pos] at *
    omega

/-- `DirectGoldskyWorker.run_load_bigquery_load`: the result of the first
dequeue has `.checkpoint` read from it BEFORE the `while item is not None`
check (`latest_checkpoint = item.checkpoint`), so an empty first dequeue
raises `AttributeError` and nothing is loaded or committed. -/
def run_load_bigquery_load (bucket : String) (pointer_size : Nat) (q : GoldskyQueue) :
    Except String (List (List String × GoldskyCheckpoint)) :=
  match (q.dequeue).1 with
  | none => .error "AttributeError: NoneType object has no attribute checkpoint"
  | some it =>
    .ok (runLoadLoop bucket pointer_size (q.dequeue).2 (some it) [] it.checkpoint [])

/-- C9 (code bug): with `max_objects_to_load = 0`, every per-worker queue
has `max_size = 0`, so the first `dequeue()` returns `None`, and
`run_load_bigquery_load` dereferences it — the run raises
`AttributeError` instead of completing without error.  No bulk-load is
submitted and no pointer row is mutated: the exception precedes any
commit. -/
theorem C9_zero_max_objects (bucket : String) (pointer_size : Nat) (q : GoldskyQueue)
    (h : q.maxSize = 0) :
    (q.dequeue).1 = none
    ∧ run_load_bigquery_load bucket pointer_size q
      = .error "AttributeError: NoneType object has no attribute checkpoint" := by
  have hd : q.dequeue = (none, q) := dequeue_capped (by omega)
  constructor
  · rw [hd]
  · unfold run_load_bigquery_load
    rw [hd]

/-- Witness for C9 at a concrete one-item queue with `max_size = 0`. -/
theorem C9_zero_max_objects_witness :
    (GoldskyQueue.dequeue ⟨[some ⟨⟨"j", 1, 1⟩, "b", ⟨"1", "j", "0", "1", '.'⟩⟩], 0, 0⟩).1 = none
    ∧ run_load_bigquery_load "bucket" 10
        ⟨[some ⟨⟨"j", 1, 1⟩, "b", ⟨"1", "j", "0", "1", '.'⟩⟩], 0, 0⟩
      = .error "AttributeError: NoneType object has no attribute checkpoint" :=
  C9_zero_max_objects "bucket" 10 _ rfl

/-! ### Retention clean-up job -/

/-- The minimum fold of `GoldskyAsset.clean_up`, starting from
`worker_status.get("0")` (possibly `None`): `if checkpoint <
end_checkpoint` — comparing against `None` raises inside `__lt__`. -/
def minCheckpointFold : Option GoldskyCheckpoint → List (String × GoldskyCheckpoint) →
    Except String (Option GoldskyCheckpoint)
  | e, [] => .ok e
  | none, _ :: _ => .error "AttributeError: NoneType object has no attribute timestamp"
  | some e, (_, c) :: rest => minCheckpointFold (some (if cpLt c e then c else e)) rest

/-- The per-worker dequeue loop of `clean_up`:
`for i in range(cleaning_count): item = queue.dequeue();
blobs.append(item.blob_name)`; a `None` dequeue would raise. -/
def collectBlobs : GoldskyQueue → Nat → Except String (List String × GoldskyQueue)
  | q, 0 => .ok ([], q)
  | q, n + 1 =>
    match (q.dequeue).1 with
    | none => .error "AttributeError: NoneType object has no attribute blob_name"
    | some it =>
      match collectBlobs (q.dequeue).2 n with
      | .error e => .error e
      | .ok (blobs, q2) => .ok (it.blob_name :: blobs, q2)

/-- The per-worker body of the clean-up loop: `cleaning_count =
queue.len() - retention_files` (a Python int, possibly negative; `range`
of a non-positive count is empty), dequeue that many blob names, then read
`blobs[-1]` — an `IndexError` when nothing was collected (the
`cleaning_count <= 0` branch only logs, it does not `continue`). -/
def cleanWorker (retention_files : Nat) (q : GoldskyQueue) : Except String (List String) :=
  match collectBlobs q ((q.len : Int) - (retention_files : Int)).toNat with
  | .error e => .error e
  | .ok (blobs, _) =>
    match blobs.getLast? with
    | none => .error "IndexError: list index out of range"
    | some _ => .ok blobs

/-- A delete request to `batch_delete_blobs(client, bucket, blobs, 1000)`. -/
structure DeleteCall where
  bucket : String
  blobs : List String
  batchSize : Nat
deriving DecidableEq, Repr

/-- The `for worker, queue in queues.worker_queues()` loop of `clean_up`. -/
def cleanAllWorkers (retention_files : Nat) :
    List (String × GoldskyQueue) → Except String (List (String × List String))
  | [] => .ok []
  | (w, q) :: rest =>
    match cleanWorker retention_files q with
    | .error e => .error e
    | .ok blobs =>
      match cleanAllWorkers retention_files rest with
      | .error e => .error e
      | .ok others => .ok ((w, blobs) :: others)

/-- `GoldskyAsset.clean_up`: read the pointer rows, fold the minimum
checkpoint starting from worker "0", then call `load_queues` with
`checkpoint_range=GoldskyCheckpointRange(end=end_checkpoint)`,
`max_objects_to_load=100_000` and the uncached blobs loader — WITHOUT
passing `worker_status`, which therefore stays `None` and makes
`load_queues` raise `AttributeError` at its post-loop `keys()` access.
The remaining body (collect each worker's deletable prefix beyond
`retention_files`; the `batch_delete_blobs` call itself is commented out,
so the performed delete-call list would be empty) is modelled but never
reached. -/
def clean_up (pfx : String) (names : List String)
    (worker_status : List (String × GoldskyCheckpoint))
    (retention_files : Nat) (config_max_objects_to_load : Nat) :
    Except String (List (String × List String) × List DeleteCall) :=
  match minCheckpointFold (lookupStatus worker_status "0") worker_status with
  | .error e => .error e
  | .ok end_checkpoint =>
    match load_queues pfx names none (some (mkCheckpointRange none end_checkpoint))
        (some 100000) config_max_objects_to_load with
    | .error e => .error e
    | .ok queues =>
      match cleanAllWorkers retention_files queues.queues with
      | .error e => .error e
      | .ok computed => .ok (computed, [])

/-- `load_queues` called without a worker status (`worker_status = None`)
always fails: whatever the loop does, the unconditional post-loop
`worker_status.keys()` raises `AttributeError`. -/
theorem load_queues_none_status (pfx : String) (names : List String)
    (rng : Option GoldskyCheckpointRange) (maxArg : Option Nat) (cfgMax : Nat) :
    ∃ e, load_queues pfx names none rng maxArg cfgMax = .error e := by
  unfold load_queues
  cases hf : (uncached_blobs_loader pfx names).foldlM
      (processMatch pfx ((none : Option (List (String × GoldskyCheckpoint))).getD []) rng)
      ⟨⟨[], effectiveMaxObjects maxArg cfgMax⟩, 0⟩ with
  | error e => exact ⟨e, rfl⟩
  | ok st => exact ⟨"AttributeError: NoneType object has no attribute keys", rfl⟩

/-- Every invocation of `clean_up` raises: either the minimum fold fails
(no row for worker "0", or an empty pointer state folding against `None`),
or — in every remaining case — `load_queues` raises `AttributeError` at
its post-loop `worker_status.keys()` access, because `clean_up` does not
pass a worker status. -/
theorem clean_up_always_raises (pfx : String) (names : List String)
    (worker_status : List (String × GoldskyCheckpoint))
    (retention_files config_max : Nat) :
    ∃ e, clean_up pfx names worker_status retention_files config_max = .error e := by
  unfold clean_up
  cases hm : minCheckpointFold (lookupStatus worker_status "0") worker_status with
  | error e => exact ⟨e, rfl⟩
  | ok end_checkpoint =>
    obtain ⟨e2, he2⟩ := load_queues_none_status pfx names
      (some (mkCheckpointRange none end_checkpoint)) (some 100000) config_max
    refine ⟨e2, ?_⟩
    show (match load_queues pfx names none (some (mkCheckpointRange none end_checkpoint))
        (some 100000) config_max with
      | Except.error e =>
        (Except.error e : Except String (List (String × List String) × List DeleteCall))
      | Except.ok queues =>
        match cleanAllWorkers retention_files queues.queues with
        | Except.error e => Except.error e
        | Except.ok computed => Except.ok (computed, [])) = Except.error e2
    rw [he2]

/-- C8 (code bug): the clean-up job never reaches the retention logic, let
alone a delete: `clean_up` calls `load_queues` without passing
`worker_status`, and `load_queues` unconditionally runs
`keys = list(worker_status.keys())` after its loop, raising
`AttributeError` on `None` — so every run aborts before collecting a
single blob (and the `batch_delete_blobs` call it would eventually make
is commented out anyway).  The second conjunct evaluates a concrete run:
pointer at worker "0", three matching blobs below the minimum,
`retention_files = 1`. -/
theorem C8_clean_up_aborts :
    (∀ (pfx : String) (names : List String)
        (worker_status : List (String × GoldskyCheckpoint))
        (retention_files config_max : Nat),
        ∃ e, clean_up pfx names worker_status retention_files config_max = .error e)
    ∧ clean_up "d/s"
        ["d/s/100-aaaaaaaa-aaaa-aaaa-aaaa-aaaaaaaaaaaa-0-1.parquet",
          "d/s/100-aaaaaaaa-aaaa-aaaa-aaaa-aaaaaaaaaaaa-0-2.parquet",
          "d/s/100-aaaaaaaa-aaaa-aaaa-aaaa-aaaaaaaaaaaa-0-3.parquet"]
        [("0", ⟨"zzzz", 200, 0⟩)] 1 50
      = .error "AttributeError: NoneType object has no attribute keys" :=
  ⟨clean_up_always_raises, rfl⟩

end Goldsky
